import Mathlib

/-!
Verification of the elysiatech ECS core (World / SparseSet / Relationship /
System / EventManager / EventQueue) against its natural-language specification.

The TypeScript sources are shallowly embedded: classes become structures,
mutation becomes explicit state passing, JS sparse arrays (number-indexed
arrays with holes, written and deleted per key) become association lists,
JS `Set` (insertion ordered, member-unique) becomes a duplicate-free list
built with add-if-absent, and observer-callback invocations become an
explicit event trace (the source invokes every callback registered for an
event synchronously, in registration order, at the point of mutation).
-/

/-- Lookup in an association list modelling a JS sparse array used as an
integer-keyed map: `sparse[entity]`, `undefined` when the key is absent. -/
def aget : List (Nat × Nat) → Nat → Option Nat
  | [], _ => none
  | (k, v) :: l, e => if e = k then some v else aget l e

/-- JS `delete sparse[entity]`: the key becomes absent. -/
def adel (l : List (Nat × Nat)) (k : Nat) : List (Nat × Nat) :=
  l.filter (fun p => p.1 != k)

/-- JS `sparse[entity] = index`: the key now maps to `index`. -/
def aset (l : List (Nat × Nat)) (k v : Nat) : List (Nat × Nat) :=
  (k, v) :: adel l k

/- ## SparseSet (src/lib/sparseset.ts)

Dense array of entities plus parallel component array, plus a sparse map
entity -> dense index.  Two versions of `remove` appear in the repository:
the swap-pop version (`SparseSet.remove` below) and a delete-then-pop
version (`SparseSet.removeDeleteThenPop` below). -/

structure SparseSet (T : Type) where
  sparse : List (Nat × Nat)
  dense : List Nat
  components : List T
  deriving Repr, DecidableEq

/-- A freshly constructed SparseSet: all three arrays empty. -/
def SparseSet.empty {T : Type} : SparseSet T := ⟨[], [], []⟩

/-- `has(entity)`: `this.sparse[entity] !== undefined`. -/
def SparseSet.has {T : Type} (s : SparseSet T) (entity : Nat) : Bool :=
  (aget s.sparse entity).isSome

/-- `size`: `this.dense.length`. -/
def SparseSet.size {T : Type} (s : SparseSet T) : Nat :=
  s.dense.length

/-- `first`: `undefined` when empty, else `components[0]`. -/
def SparseSet.first {T : Type} (s : SparseSet T) : Option T :=
  s.components.head?

/-- `get(entity)`: `undefined` unless present, else `components[sparse[entity]]`. -/
def SparseSet.get {T : Type} (s : SparseSet T) (entity : Nat) : Option T :=
  match aget s.sparse entity with
  | none => none
  | some i => s.components[i]?

/-- `add(entity, component)`: no-op returning false when present; otherwise
appends to `dense`, records the new index in `sparse`, and writes the
component at that index (an append, as `components` and `dense` have equal
length — maintained by every operation). Returns true. -/
def SparseSet.add {T : Type} (s : SparseSet T) (entity : Nat) (component : T) :
    SparseSet T × Bool :=
  if s.has entity then (s, false)
  else
    ({ sparse := aset s.sparse entity s.dense.length,
       dense := s.dense ++ [entity],
       components := s.components ++ [component] }, true)

/-- Swap-pop `remove(entity)` (the variant whose dense array stays packed):
no-op when absent; else, when the removed slot is not the last, the last
dense entry and component are copied into the removed slot and the moved
entity's sparse index updated; then both arrays pop their last element and
the removed entity's sparse key is deleted; finally, when the set became
empty, the sparse array is reset. -/
def SparseSet.remove {T : Type} (s : SparseSet T) (entity : Nat) : SparseSet T :=
  match aget s.sparse entity with
  | none => s
  | some indexToRemove =>
    let lastIndex := s.dense.length - 1
    let s1 : SparseSet T :=
      if indexToRemove ≠ lastIndex then
        let lastEntity := s.dense.getD lastIndex 0
        { sparse := aset s.sparse lastEntity indexToRemove,
          dense := s.dense.set indexToRemove lastEntity,
          components :=
            match s.components[lastIndex]? with
            | some c => s.components.set indexToRemove c
            | none => s.components }
      else s
    let s2 : SparseSet T :=
      { sparse := adel s1.sparse entity,
        dense := s1.dense.dropLast,
        components := s1.components.dropLast }
    if s2.dense.length = 0 then { s2 with sparse := [] } else s2

/-- Delete-then-pop `remove(entity)` (the second variant in the repository):
it first `delete`s the removed slot in all three arrays, then pops the last
dense/component entries.  When the removed slot IS the last one, the popped
dense entry is the hole just deleted, i.e. `undefined`, so the code takes
its "set became empty" branch and truncates all three arrays to length 0 —
even when other entities are still stored. Otherwise it writes the popped
entries into the removed slot and updates the moved entity's sparse index. -/
def SparseSet.removeDeleteThenPop {T : Type} (s : SparseSet T) (entity : Nat) :
    SparseSet T :=
  match aget s.sparse entity with
  | none => s
  | some index =>
    if index = s.dense.length - 1 then
      { sparse := [], dense := [], components := [] }
    else
      let lastDenseItem := s.dense.getD (s.dense.length - 1) 0
      { sparse := aset (adel s.sparse entity) lastDenseItem index,
        dense := (s.dense.dropLast).set index lastDenseItem,
        components :=
          match s.components[s.components.length - 1]? with
          | some c => (s.components.dropLast).set index c
          | none => s.components.dropLast }

/- ## Association-list lemmas for the sparse map -/

theorem aget_adel (l : List (Nat × Nat)) (k e : Nat) :
    aget (adel l k) e = if e = k then none else aget l e := by
  induction l with
  | nil => simp [adel, aget]
  | cons p l ih =>
    by_cases hpk : p.1 = k
    · have : adel (p :: l) k = adel l k := by
        simp [adel, List.filter, hpk]
      rw [this, ih]
      by_cases hek : e = k
      · simp [hek]
      · have hep : e ≠ p.1 := by rw [hpk]; exact hek
        simp [hek, aget, hep]
    · have hbk : (p.1 != k) = true := by simpa using hpk
      have : adel (p :: l) k = p :: adel l k := by
        simp [adel, List.filter, hbk]
      rw [this]
      by_cases hep : e = p.1
      · have hek : e ≠ k := by rw [hep]; exact hpk
        cases p with
        | mk k0 v0 => simp_all [aget]
      · cases p with
        | mk k0 v0 =>
          simp only at hep
          simp only [aget, if_neg hep]
          rw [ih]

theorem aget_aset_self (l : List (Nat × Nat)) (k v : Nat) :
    aget (aset l k v) k = some v := by
  simp [aset, aget]

theorem aget_aset_ne (l : List (Nat × Nat)) (k v e : Nat) (h : e ≠ k) :
    aget (aset l k v) e = aget l e := by
  simp [aset, aget, h, aget_adel]

theorem aget_mem {l : List (Nat × Nat)} {e i : Nat} (h : aget l e = some i) :
    (e, i) ∈ l := by
  induction l with
  | nil => simp [aget] at h
  | cons p l ih =>
    cases p with
    | mk k0 v0 =>
      by_cases hek : e = k0
      · subst hek
        simp [aget] at h
        simp [h]
      · simp [aget, hek] at h
        exact List.mem_cons_of_mem _ (ih h)

theorem mem_adel {l : List (Nat × Nat)} {k : Nat} {p : Nat × Nat}
    (h : p ∈ adel l k) : p ∈ l ∧ p.1 ≠ k := by
  refine ⟨List.mem_of_mem_filter h, ?_⟩
  have := List.of_mem_filter h
  simpa using this

theorem keys_nodup_adel {l : List (Nat × Nat)} (h : (l.map Prod.fst).Nodup)
    (k : Nat) : ((adel l k).map Prod.fst).Nodup :=
  ((List.filter_sublist l).map Prod.fst).nodup h

theorem keys_nodup_aset {l : List (Nat × Nat)} (h : (l.map Prod.fst).Nodup)
    (k v : Nat) : ((aset l k v).map Prod.fst).Nodup := by
  simp only [aset, List.map_cons, List.nodup_cons]
  refine ⟨?_, keys_nodup_adel h k⟩
  intro hmem
  rcases List.mem_map.1 hmem with ⟨p, hp, hpk⟩
  exact (mem_adel hp).2 hpk

/- ## SparseSet well-formedness

The invariant every reachable SparseSet satisfies: the component array is
parallel to the dense array, sparse keys are unique, each dense slot's
entity maps back to its index, and each sparse entry points at a dense slot
holding its entity. -/

def SparseSet.Wf {T : Type} (s : SparseSet T) : Prop :=
  s.components.length = s.dense.length ∧
  (s.sparse.map Prod.fst).Nodup ∧
  (∀ i < s.dense.length, aget s.sparse (s.dense.getD i 0) = some i) ∧
  (∀ p ∈ s.sparse, p.2 < s.dense.length ∧ s.dense[p.2]? = some p.1)

instance {T : Type} (s : SparseSet T) : Decidable s.Wf := by
  unfold SparseSet.Wf
  infer_instance

theorem SparseSet.Wf.empty {T : Type} : (SparseSet.empty (T := T)).Wf := by
  refine ⟨rfl, List.nodup_nil, ?_, ?_⟩ <;> simp [SparseSet.empty, aget]

namespace SparseSet

variable {T : Type}

theorem Wf.sparse_of_aget {s : SparseSet T} (hw : s.Wf) {e i : Nat}
    (h : aget s.sparse e = some i) :
    i < s.dense.length ∧ s.dense[i]? = some e :=
  hw.2.2.2 (e, i) (aget_mem h)

theorem Wf.aget_of_dense {s : SparseSet T} (hw : s.Wf) {i : Nat}
    (h : i < s.dense.length) : aget s.sparse (s.dense.getD i 0) = some i :=
  hw.2.2.1 i h

theorem Wf.dense_nodup {s : SparseSet T} (hw : s.Wf) : s.dense.Nodup := by
  rw [List.nodup_iff_injective_get]
  intro ⟨i, hi⟩ ⟨j, hj⟩ hij
  have h1 := hw.aget_of_dense hi
  have h2 := hw.aget_of_dense hj
  simp only [List.getD_eq_getElem?_getD, List.getElem?_eq_getElem hi,
    List.getElem?_eq_getElem hj, Option.getD_some] at h1 h2
  simp only [List.get_eq_getElem] at hij
  rw [hij] at h1
  rw [h1] at h2
  simp only [Option.some.injEq] at h2
  exact Fin.ext h2

theorem Wf.has_iff_mem_dense {s : SparseSet T} (hw : s.Wf) {e : Nat} :
    s.has e = true ↔ e ∈ s.dense := by
  constructor
  · intro h
    rcases Option.isSome_iff_exists.1 h with ⟨i, hi⟩
    rcases hw.sparse_of_aget hi with ⟨hlt, hdi⟩
    exact List.getElem?_mem hdi
  · intro h
    rcases List.getElem_of_mem h with ⟨i, hi, hie⟩
    have := hw.aget_of_dense hi
    rw [List.getD_eq_getElem?_getD, List.getElem?_eq_getElem hi] at this
    simp only [Option.getD_some] at this
    rw [hie] at this
    simp [SparseSet.has, this]

theorem Wf.get_isSome {s : SparseSet T} (hw : s.Wf) (e : Nat) :
    (s.get e).isSome = s.has e := by
  unfold SparseSet.get SparseSet.has
  cases hag : aget s.sparse e with
  | none => simp
  | some i =>
    rcases hw.sparse_of_aget hag with ⟨hlt, _⟩
    have : i < s.components.length := by rw [hw.1]; exact hlt
    simp [List.getElem?_eq_getElem this]

theorem add_of_has {s : SparseSet T} {e : Nat} (h : s.has e = true) (c : T) :
    s.add e c = (s, false) := by
  simp [SparseSet.add, h]

theorem add_of_not_has {s : SparseSet T} {e : Nat} (h : s.has e = false) (c : T) :
    s.add e c =
      ({ sparse := aset s.sparse e s.dense.length,
         dense := s.dense ++ [e],
         components := s.components ++ [c] }, true) := by
  simp [SparseSet.add, h]

theorem has_add (s : SparseSet T) (e x : Nat) (c : T) :
    ((s.add e c).1).has x = (x == e || s.has x) := by
  by_cases h : s.has e
  · rw [add_of_has h]
    by_cases hx : x = e
    · subst hx; simp [h]
    · simp [hx]
  · have h0 : s.has e = false := by simpa using h
    rw [add_of_not_has h0]
    by_cases hx : x = e
    · subst hx; simp [SparseSet.has, aget_aset_self]
    · simp [SparseSet.has, aget_aset_ne _ _ _ _ hx, hx]

theorem size_add (s : SparseSet T) (e : Nat) (c : T) :
    ((s.add e c).1).size = if s.has e then s.size else s.size + 1 := by
  by_cases h : s.has e
  · rw [add_of_has h]; simp [h]
  · have h0 : s.has e = false := by simpa using h
    rw [add_of_not_has h0]
    simp [h0, SparseSet.size]

theorem get_add_ne {s : SparseSet T} (hw : s.Wf) {x e : Nat} (h : x ≠ e) (c : T) :
    ((s.add e c).1).get x = s.get x := by
  by_cases he : s.has e
  · rw [add_of_has he]
  · have h0 : s.has e = false := by simpa using he
    rw [add_of_not_has h0]
    unfold SparseSet.get
    simp only [aget_aset_ne _ _ _ _ h]
    cases hag : aget s.sparse x with
    | none => rfl
    | some i =>
      rcases hw.sparse_of_aget hag with ⟨hlt, _⟩
      have hlt2 : i < s.components.length := by rw [hw.1]; exact hlt
      simp [List.getElem?_append_left hlt2]

theorem get_add_self {s : SparseSet T} (hw : s.Wf) {e : Nat}
    (h : s.has e = false) (c : T) : ((s.add e c).1).get e = some c := by
  rw [add_of_not_has h]
  unfold SparseSet.get
  simp only [aget_aset_self]
  rw [← hw.1]
  simp [List.getElem?_concat_length]

theorem Wf.add {s : SparseSet T} (hw : s.Wf) (e : Nat) (c : T) :
    ((s.add e c).1).Wf := by
  by_cases he : s.has e
  · rw [add_of_has he]; exact hw
  · have h0 : s.has e = false := by simpa using he
    rw [add_of_not_has h0]
    refine ⟨by simp [hw.1], keys_nodup_aset hw.2.1 _ _, ?_, ?_⟩
    · intro i hi
      simp only [List.length_append, List.length_singleton] at hi
      rcases Nat.lt_succ_iff_lt_or_eq.1 hi with hlt | heq
      · have hgd : (s.dense ++ [e]).getD i 0 = s.dense.getD i 0 := by
          rw [List.getD_eq_getElem?_getD, List.getD_eq_getElem?_getD,
            List.getElem?_append_left hlt]
        rw [hgd]
        have hne : s.dense.getD i 0 ≠ e := by
          intro hcontra
          have hmem : e ∈ s.dense := by
            rw [← hcontra]
            rw [List.getD_eq_getElem?_getD, List.getElem?_eq_getElem hlt]
            exact List.getElem_mem hlt
          have := hw.has_iff_mem_dense.2 hmem
          rw [h0] at this
          exact Bool.false_ne_true this
        rw [aget_aset_ne _ _ _ _ hne]
        exact hw.aget_of_dense hlt
      · subst heq
        have hgd : (s.dense ++ [e]).getD s.dense.length 0 = e := by
          rw [List.getD_eq_getElem?_getD, List.getElem?_concat_length]
          rfl
        rw [hgd, aget_aset_self]
    · intro p hp
      simp only [aset, List.mem_cons] at hp
      rcases hp with hpe | hpd
      · subst hpe
        simp [List.getElem?_concat_length]
      · rcases mem_adel hpd with ⟨hps, _⟩
        rcases hw.2.2.2 p hps with ⟨hlt, hde⟩
        refine ⟨by simp; omega, ?_⟩
        rw [List.getElem?_append_left hlt]
        exact hde

end SparseSet

/-- In-place mutation of the stored component of `entity` (a JS caller that
holds the object reference obtained from `get` and mutates its fields; the
store keeps pointing at the same object, so the stored value changes). -/
def SparseSet.modify {T : Type} (s : SparseSet T) (entity : Nat) (f : T → T) :
    SparseSet T :=
  match aget s.sparse entity with
  | none => s
  | some i =>
    match s.components[i]? with
    | some c => { s with components := s.components.set i (f c) }
    | none => s

namespace SparseSet

variable {T : Type}

theorem sparse_modify (s : SparseSet T) (e : Nat) (f : T → T) :
    (s.modify e f).sparse = s.sparse := by
  unfold modify
  cases hag : aget s.sparse e with
  | none => rfl
  | some i =>
    cases hc : s.components[i]? with
    | none => simp [hc]
    | some c => simp [hc]

theorem dense_modify (s : SparseSet T) (e : Nat) (f : T → T) :
    (s.modify e f).dense = s.dense := by
  unfold modify
  cases hag : aget s.sparse e with
  | none => rfl
  | some i =>
    cases hc : s.components[i]? with
    | none => simp [hc]
    | some c => simp [hc]

theorem has_modify (s : SparseSet T) (e x : Nat) (f : T → T) :
    (s.modify e f).has x = s.has x := by
  unfold has
  rw [sparse_modify]

theorem Wf.modify {s : SparseSet T} (hw : s.Wf) (e : Nat) (f : T → T) :
    (s.modify e f).Wf := by
  unfold SparseSet.modify
  cases hag : aget s.sparse e with
  | none => exact hw
  | some i =>
    cases hc : s.components[i]? with
    | none => simpa [hc] using hw
    | some c =>
      simp only [hc]
      unfold SparseSet.Wf
      exact ⟨by simp [hw.1], hw.2.1, hw.2.2.1, hw.2.2.2⟩

theorem get_mk_components (sp : List (Nat × Nat)) (d : List Nat) (cs : List T)
    (x : Nat) :
    (SparseSet.mk sp d cs).get x =
      match aget sp x with
      | none => none
      | some j => cs[j]? := rfl

theorem get_modify_self (s : SparseSet T) (e : Nat) (f : T → T) :
    (s.modify e f).get e = (s.get e).map f := by
  unfold modify
  cases hag : aget s.sparse e with
  | none => simp [get, hag]
  | some i =>
    cases hc : s.components[i]? with
    | none => simp [get, hag, hc]
    | some c =>
      have hi : i < s.components.length := (List.getElem?_eq_some.1 hc).1
      simp only [hc]
      rw [get_mk_components]
      simp only [get, hag, hc, Option.map_some']
      exact List.getElem?_set_self hi

theorem get_modify_ne {s : SparseSet T} (hw : s.Wf) {x e : Nat} (h : x ≠ e)
    (f : T → T) : (s.modify e f).get x = s.get x := by
  unfold modify
  cases hag : aget s.sparse e with
  | none => rfl
  | some i =>
    cases hc : s.components[i]? with
    | none => simp [hc]
    | some c =>
      simp only [hc]
      rw [get_mk_components]
      unfold get
      cases hagx : aget s.sparse x with
      | none => rfl
      | some j =>
        have hij : i ≠ j := by
          intro hcontra
          subst hcontra
          rcases hw.sparse_of_aget hag with ⟨_, hde⟩
          rcases hw.sparse_of_aget hagx with ⟨_, hdx⟩
          rw [hde] at hdx
          exact h (Option.some.injEq _ _ ▸ hdx).symm
        exact List.getElem?_set_ne hij

theorem getElem?_dropLast_of_lt {α : Type} (l : List α) {i : Nat}
    (h : i < l.length - 1) : l.dropLast[i]? = l[i]? := by
  rw [List.dropLast_eq_take, List.getElem?_take, if_pos h]

theorem getD_of_lt (l : List Nat) {i : Nat} (h : i < l.length) :
    l.getD i 0 = l[i] := by
  rw [List.getD_eq_getElem?_getD, List.getElem?_eq_getElem h]
  rfl

theorem Wf.dense_pos_inj {s : SparseSet T} (hw : s.Wf) {i j : Nat}
    (hi : i < s.dense.length) (hj : j < s.dense.length)
    (h : s.dense[i]? = s.dense[j]?) : i = j := by
  have h1 := hw.aget_of_dense hi
  have h2 := hw.aget_of_dense hj
  rw [getD_of_lt _ hi] at h1
  rw [getD_of_lt _ hj] at h2
  rw [List.getElem?_eq_getElem hi, List.getElem?_eq_getElem hj] at h
  simp only [Option.some.injEq] at h
  rw [h] at h1
  rw [h1] at h2
  exact Option.some.injEq _ _ ▸ h2

theorem remove_of_not_has {s : SparseSet T} {e : Nat}
    (h : aget s.sparse e = none) : s.remove e = s := by
  unfold remove
  rw [h]

theorem remove_last_shape {s : SparseSet T} {e k : Nat}
    (hag : aget s.sparse e = some k) (hk : k = s.dense.length - 1) :
    s.remove e =
      if s.dense.length - 1 = 0 then
        { sparse := [], dense := s.dense.dropLast,
          components := s.components.dropLast }
      else
        { sparse := adel s.sparse e, dense := s.dense.dropLast,
          components := s.components.dropLast } := by
  unfold remove
  rw [hag]
  simp only [hk, ne_eq, not_true_eq_false, if_false, List.length_dropLast]

theorem remove_swap_shape {s : SparseSet T} {e k b : Nat} {cb : T}
    (hag : aget s.sparse e = some k) (hk : k < s.dense.length - 1)
    (hbdef : s.dense.getD (s.dense.length - 1) 0 = b)
    (hcb : s.components[s.dense.length - 1]? = some cb) :
    s.remove e =
      { sparse := adel (aset s.sparse b k) e,
        dense := (s.dense.set k b).dropLast,
        components := (s.components.set k cb).dropLast } := by
  unfold remove
  rw [hag]
  have hne : k ≠ s.dense.length - 1 := Nat.ne_of_lt hk
  have hlen : ¬((s.dense.set k b).dropLast.length = 0) := by
    simp only [List.length_dropLast, List.length_set]
    omega
  simp only [hne, ne_eq, not_false_iff, if_true, hbdef, hcb, hlen, if_false]

theorem Wf.remove {s : SparseSet T} (hw : s.Wf) (e : Nat) : (s.remove e).Wf := by
  cases hag : aget s.sparse e with
  | none => rw [remove_of_not_has hag]; exact hw
  | some k =>
    rcases hw.sparse_of_aget hag with ⟨hklt, hdk⟩
    by_cases hkl : k = s.dense.length - 1
    · rw [remove_last_shape hag hkl]
      by_cases h0 : s.dense.length - 1 = 0
      · rw [if_pos h0]
        unfold SparseSet.Wf
        refine ⟨by simp [hw.1], List.nodup_nil, ?_, ?_⟩
        · intro i hi
          simp only [List.length_dropLast, h0] at hi
          omega
        · intro p hp
          simp at hp
      · rw [if_neg h0]
        unfold SparseSet.Wf
        refine ⟨by simp [hw.1], keys_nodup_adel hw.2.1 e, ?_, ?_⟩
        · intro i hi
          simp only [List.length_dropLast] at hi
          have hilt : i < s.dense.length := by omega
          have hgd : s.dense.dropLast.getD i 0 = s.dense.getD i 0 := by
            rw [List.getD_eq_getElem?_getD, List.getD_eq_getElem?_getD,
              getElem?_dropLast_of_lt _ hi]
          rw [hgd, aget_adel]
          have hne : s.dense.getD i 0 ≠ e := by
            intro hcontra
            have hine : i ≠ s.dense.length - 1 := by omega
            apply hine
            apply hw.dense_pos_inj hilt (show s.dense.length - 1 < s.dense.length by omega)
            have h1 : s.dense[i]? = some e := by
              rw [List.getElem?_eq_getElem hilt, ← getD_of_lt _ hilt, hcontra]
            have h2 : s.dense[s.dense.length - 1]? = some e := by
              rw [← hkl]; exact hdk
            rw [h1, h2]
          rw [if_neg hne]
          exact hw.aget_of_dense hilt
        · intro p hp
          rcases mem_adel hp with ⟨hps, hpe⟩
          rcases hw.2.2.2 p hps with ⟨hplt, hpd⟩
          have hpne : p.2 ≠ s.dense.length - 1 := by
            intro hcontra
            apply hpe
            rw [hcontra, ← hkl] at hpd
            rw [hdk] at hpd
            exact (Option.some.injEq _ _ ▸ hpd).symm
          have hplt2 : p.2 < s.dense.length - 1 := by omega
          refine ⟨by simpa using hplt2, ?_⟩
          rw [getElem?_dropLast_of_lt _ hplt2]
          exact hpd
    · have hkl2 : k < s.dense.length - 1 := by omega
      have hlpos : 0 < s.dense.length := by omega
      have hlast : s.dense.length - 1 < s.dense.length := by omega
      obtain ⟨b, hbdef⟩ : ∃ b, s.dense.getD (s.dense.length - 1) 0 = b := ⟨_, rfl⟩
      have hb : aget s.sparse b = some (s.dense.length - 1) := by
        rw [← hbdef]
        exact hw.aget_of_dense hlast
      have hbe : b ≠ e := by
        intro hcontra
        rw [hcontra, hag] at hb
        simp only [Option.some.injEq] at hb
        omega
      have hbdense : s.dense[s.dense.length - 1]? = some b := by
        rw [List.getElem?_eq_getElem hlast, ← getD_of_lt _ hlast, hbdef]
      have hcblt : s.dense.length - 1 < s.components.length := by rw [hw.1]; omega
      rcases Option.isSome_iff_exists.1
        (by simp [List.getElem?_eq_getElem hcblt] :
          (s.components[s.dense.length - 1]?).isSome = true) with ⟨cb, hcb⟩
      rw [remove_swap_shape hag hkl2 hbdef hcb]
      unfold SparseSet.Wf
      constructor
      · simp only [List.length_dropLast, List.length_set]
        rw [hw.1]
      constructor
      · exact keys_nodup_adel (keys_nodup_aset hw.2.1 _ _) e
      constructor
      · intro i hi
        simp only [List.length_dropLast, List.length_set] at hi
        have hilt : i < s.dense.length := by omega
        have hilt2 : i < (s.dense.set k b).length - 1 := by
          simp only [List.length_set]
          omega
        have hgd : ((s.dense.set k b).dropLast).getD i 0 =
            (s.dense.set k b).getD i 0 := by
          rw [List.getD_eq_getElem?_getD, List.getD_eq_getElem?_getD,
            getElem?_dropLast_of_lt _ hilt2]
        rw [hgd, aget_adel]
        by_cases hik : i = k
        · subst hik
          have hval : (s.dense.set i b).getD i 0 = b := by
            rw [List.getD_eq_getElem?_getD, List.getElem?_set_self hilt]
            rfl
          rw [hval, if_neg hbe, aget_aset_self]
        · have hval : (s.dense.set k b).getD i 0 = s.dense.getD i 0 := by
            rw [List.getD_eq_getElem?_getD, List.getElem?_set_ne (Ne.symm hik),
              List.getD_eq_getElem?_getD]
          rw [hval]
          have hie : s.dense.getD i 0 ≠ e := by
            intro hcontra
            apply hik
            apply hw.dense_pos_inj hilt hklt
            rw [List.getElem?_eq_getElem hilt, ← getD_of_lt _ hilt, hcontra, hdk]
          have hib : s.dense.getD i 0 ≠ b := by
            intro hcontra
            have : i = s.dense.length - 1 := by
              apply hw.dense_pos_inj hilt hlast
              rw [List.getElem?_eq_getElem hilt, ← getD_of_lt _ hilt, hcontra, hbdense]
            omega
          rw [if_neg hie, aget_aset_ne _ _ _ _ hib]
          exact hw.aget_of_dense hilt
      · intro p hp
        rcases mem_adel hp with ⟨hpa, hpe⟩
        simp only [aset, List.mem_cons] at hpa
        rcases hpa with hpb | hpd
        · subst hpb
          refine ⟨by simp only [List.length_dropLast, List.length_set]; omega, ?_⟩
          rw [getElem?_dropLast_of_lt]
          · rw [List.getElem?_set_self hklt]
          · simp only [List.length_set]
            omega
        · rcases mem_adel hpd with ⟨hps, hpb⟩
          rcases hw.2.2.2 p hps with ⟨hplt, hpdense⟩
          have hpk : p.2 ≠ k := by
            intro hcontra
            apply hpe
            rw [hcontra, hdk] at hpdense
            exact (Option.some.injEq _ _ ▸ hpdense).symm
          have hpl : p.2 ≠ s.dense.length - 1 := by
            intro hcontra
            apply hpb
            rw [hcontra, hbdense] at hpdense
            exact ((Option.some.injEq _ _ ▸ hpdense)).symm
          have hplt2 : p.2 < s.dense.length - 1 := by omega
          refine ⟨by simp only [List.length_dropLast, List.length_set]; omega, ?_⟩
          rw [getElem?_dropLast_of_lt]
          · rw [List.getElem?_set_ne (Ne.symm hpk)]
            exact hpdense
          · simp only [List.length_set]
            omega

theorem has_remove {s : SparseSet T} (hw : s.Wf) (e x : Nat) :
    (s.remove e).has x = (s.has x && x != e) := by
  cases hag : aget s.sparse e with
  | none =>
    rw [remove_of_not_has hag]
    by_cases hx : x = e
    · subst hx
      simp [SparseSet.has, hag]
    · simp [hx]
  | some k =>
    rcases hw.sparse_of_aget hag with ⟨hklt, hdk⟩
    by_cases hkl : k = s.dense.length - 1
    · rw [remove_last_shape hag hkl]
      by_cases h0 : s.dense.length - 1 = 0
      · rw [if_pos h0]
        by_cases hx : x = e
        · subst hx
          simp [SparseSet.has, aget]
        · have hxf : s.has x = false := by
            cases hagx : aget s.sparse x with
            | none => simp [SparseSet.has, hagx]
            | some j =>
              rcases hw.sparse_of_aget hagx with ⟨hjlt, hdj⟩
              have hj0 : j = k := by omega
              rw [hj0, hdk] at hdj
              exact absurd (Option.some.injEq _ _ ▸ hdj).symm hx
          have hl : SparseSet.has ⟨[], s.dense.dropLast, s.components.dropLast⟩ x = false := rfl
          rw [hl, hxf]
          simp
      · rw [if_neg h0]
        by_cases hx : x = e
        · subst hx
          simp [SparseSet.has, aget_adel]
        · simp [SparseSet.has, aget_adel, hx]
    · have hkl2 : k < s.dense.length - 1 := by omega
      have hlast : s.dense.length - 1 < s.dense.length := by omega
      obtain ⟨b, hbdef⟩ : ∃ b, s.dense.getD (s.dense.length - 1) 0 = b := ⟨_, rfl⟩
      have hb : aget s.sparse b = some (s.dense.length - 1) := by
        rw [← hbdef]
        exact hw.aget_of_dense hlast
      have hbe : b ≠ e := by
        intro hcontra
        rw [hcontra, hag] at hb
        simp only [Option.some.injEq] at hb
        omega
      have hcblt : s.dense.length - 1 < s.components.length := by rw [hw.1]; omega
      rcases Option.isSome_iff_exists.1
        (by simp [List.getElem?_eq_getElem hcblt] :
          (s.components[s.dense.length - 1]?).isSome = true) with ⟨cb, hcb⟩
      rw [remove_swap_shape hag hkl2 hbdef hcb]
      by_cases hx : x = e
      · subst hx
        simp [SparseSet.has, aget_adel]
      · by_cases hxb : x = b
        · subst hxb
          simp [SparseSet.has, aget_adel, hx, aget_aset_self, hb]
        · simp [SparseSet.has, aget_adel, hx, aget_aset_ne _ _ _ _ hxb]

theorem get_remove_self {s : SparseSet T} (hw : s.Wf) (e : Nat) :
    (s.remove e).get e = none := by
  have h1 : ((s.remove e).get e).isSome = false := by
    rw [(hw.remove e).get_isSome, has_remove hw]
    simp
  rw [← Option.not_isSome_iff_eq_none]
  simp [h1]

theorem get_of_aget_some {sp : List (Nat × Nat)} {d : List Nat} {cs : List T}
    {x j : Nat} (h : aget sp x = some j) :
    (SparseSet.mk sp d cs).get x = cs[j]? := by
  unfold get
  simp only [h]

theorem get_of_aget_none {sp : List (Nat × Nat)} {d : List Nat} {cs : List T}
    {x : Nat} (h : aget sp x = none) :
    (SparseSet.mk sp d cs).get x = none := by
  unfold get
  simp only [h]

theorem get_remove_ne {s : SparseSet T} (hw : s.Wf) {x e : Nat} (hx : x ≠ e) :
    (s.remove e).get x = s.get x := by
  cases hag : aget s.sparse e with
  | none => rw [remove_of_not_has hag]
  | some k =>
    rcases hw.sparse_of_aget hag with ⟨hklt, hdk⟩
    by_cases hkl : k = s.dense.length - 1
    · rw [remove_last_shape hag hkl]
      by_cases h0 : s.dense.length - 1 = 0
      · rw [if_pos h0]
        have hxn : aget s.sparse x = none := by
          cases hagx : aget s.sparse x with
          | none => rfl
          | some j =>
            rcases hw.sparse_of_aget hagx with ⟨hjlt, hdj⟩
            have hj0 : j = k := by omega
            rw [hj0, hdk] at hdj
            exact absurd (Option.some.injEq _ _ ▸ hdj).symm hx
        rw [get_of_aget_none (by simp [aget])]
        simp [SparseSet.get, hxn]
      · rw [if_neg h0]
        cases hagx : aget s.sparse x with
        | none =>
          rw [get_of_aget_none (by rw [aget_adel, if_neg hx, hagx])]
          simp [SparseSet.get, hagx]
        | some j =>
          rcases hw.sparse_of_aget hagx with ⟨hjlt, hdj⟩
          have hjne : j ≠ s.dense.length - 1 := by
            intro hcontra
            rw [hcontra, ← hkl, hdk] at hdj
            exact hx (Option.some.injEq _ _ ▸ hdj).symm
          have hjlt2 : j < s.components.length - 1 := by rw [hw.1]; omega
          rw [get_of_aget_some (by rw [aget_adel, if_neg hx, hagx]),
            getElem?_dropLast_of_lt _ hjlt2]
          simp [SparseSet.get, hagx]
    · have hkl2 : k < s.dense.length - 1 := by omega
      have hlast : s.dense.length - 1 < s.dense.length := by omega
      obtain ⟨b, hbdef⟩ : ∃ b, s.dense.getD (s.dense.length - 1) 0 = b := ⟨_, rfl⟩
      have hb : aget s.sparse b = some (s.dense.length - 1) := by
        rw [← hbdef]
        exact hw.aget_of_dense hlast
      have hbdense : s.dense[s.dense.length - 1]? = some b := by
        rw [List.getElem?_eq_getElem hlast, ← getD_of_lt _ hlast, hbdef]
      have hcblt : s.dense.length - 1 < s.components.length := by rw [hw.1]; omega
      rcases Option.isSome_iff_exists.1
        (by simp [List.getElem?_eq_getElem hcblt] :
          (s.components[s.dense.length - 1]?).isSome = true) with ⟨cb, hcb⟩
      rw [remove_swap_shape hag hkl2 hbdef hcb]
      by_cases hxb : x = b
      · subst hxb
        have hagb : aget (adel (aset s.sparse x k) e) x = some k := by
          rw [aget_adel, if_neg hx, aget_aset_self]
        have hklt2 : k < (s.components.set k cb).length - 1 := by
          simp only [List.length_set]
          rw [hw.1]
          omega
        rw [get_of_aget_some hagb, getElem?_dropLast_of_lt _ hklt2,
          List.getElem?_set_self (by rw [hw.1]; omega)]
        simp [SparseSet.get, hb, hcb]
      · cases hagx : aget s.sparse x with
        | none =>
          rw [get_of_aget_none
            (by rw [aget_adel, if_neg hx, aget_aset_ne _ _ _ _ hxb, hagx])]
          simp [SparseSet.get, hagx]
        | some j =>
          rcases hw.sparse_of_aget hagx with ⟨hjlt, hdj⟩
          have hjk : j ≠ k := by
            intro hcontra
            rw [hcontra, hdk] at hdj
            exact hx (Option.some.injEq _ _ ▸ hdj).symm
          have hjl : j ≠ s.dense.length - 1 := by
            intro hcontra
            rw [hcontra, hbdense] at hdj
            exact hxb (Option.some.injEq _ _ ▸ hdj).symm
          have hjlt2 : j < (s.components.set k cb).length - 1 := by
            simp only [List.length_set]
            rw [hw.1]
            omega
          rw [get_of_aget_some
              (by rw [aget_adel, if_neg hx, aget_aset_ne _ _ _ _ hxb, hagx]),
            getElem?_dropLast_of_lt _ hjlt2, List.getElem?_set_ne (Ne.symm hjk)]
          simp [SparseSet.get, hagx]

theorem size_remove {s : SparseSet T} (hw : s.Wf) (e : Nat) :
    (s.remove e).size = if s.has e then s.size - 1 else s.size := by
  cases hag : aget s.sparse e with
  | none =>
    rw [remove_of_not_has hag]
    simp [SparseSet.has, hag]
  | some k =>
    have hh : s.has e = true := by simp [SparseSet.has, hag]
    rcases hw.sparse_of_aget hag with ⟨hklt, _⟩
    by_cases hkl : k = s.dense.length - 1
    · rw [remove_last_shape hag hkl]
      by_cases h0 : s.dense.length - 1 = 0
      · rw [if_pos h0]
        simp [SparseSet.size, hh]
      · rw [if_neg h0]
        simp [SparseSet.size, hh]
    · have hkl2 : k < s.dense.length - 1 := by omega
      have hlast : s.dense.length - 1 < s.dense.length := by omega
      obtain ⟨b, hbdef⟩ : ∃ b, s.dense.getD (s.dense.length - 1) 0 = b := ⟨_, rfl⟩
      have hcblt : s.dense.length - 1 < s.components.length := by rw [hw.1]; omega
      rcases Option.isSome_iff_exists.1
        (by simp [List.getElem?_eq_getElem hcblt] :
          (s.components[s.dense.length - 1]?).isSome = true) with ⟨cb, hcb⟩
      rw [remove_swap_shape hag hkl2 hbdef hcb]
      simp [SparseSet.size, hh, List.length_set]

end SparseSet

/- ## Interleavings of add and remove (spec section 8, SparseSet bullet)

An interleaving is a list of operations run from the empty set; the net
effect is tracked by a plain finite set of ids. -/

inductive SOp (T : Type) where
  | add (entity : Nat) (component : T)
  | remove (entity : Nat)

def runOps {T : Type} (ops : List (SOp T)) : SparseSet T :=
  ops.foldl
    (fun s op =>
      match op with
      | SOp.add e c => (s.add e c).1
      | SOp.remove e => s.remove e)
    SparseSet.empty

/-- The net effect of an interleaving: the set of ids added and not
subsequently removed. -/
def netSet {T : Type} (ops : List (SOp T)) : Finset Nat :=
  ops.foldl
    (fun m op =>
      match op with
      | SOp.add e _ => insert e m
      | SOp.remove e => m.erase e)
    ∅

theorem runOps_aux {T : Type} (ops : List (SOp T)) (s : SparseSet T)
    (m : Finset Nat) (hw : s.Wf) (hhas : ∀ x, s.has x = true ↔ x ∈ m)
    (hsize : s.size = m.card) :
    (ops.foldl
      (fun s op =>
        match op with
        | SOp.add e c => (s.add e c).1
        | SOp.remove e => s.remove e) s).Wf ∧
    (∀ x, (ops.foldl
      (fun s op =>
        match op with
        | SOp.add e c => (s.add e c).1
        | SOp.remove e => s.remove e) s).has x = true ↔
      x ∈ ops.foldl
        (fun m op =>
          match op with
          | SOp.add e _ => insert e m
          | SOp.remove e => m.erase e) m) ∧
    (ops.foldl
      (fun s op =>
        match op with
        | SOp.add e c => (s.add e c).1
        | SOp.remove e => s.remove e) s).size =
      (ops.foldl
        (fun m op =>
          match op with
          | SOp.add e _ => insert e m
          | SOp.remove e => m.erase e) m).card := by
  induction ops generalizing s m with
  | nil => exact ⟨hw, hhas, hsize⟩
  | cons op ops ih =>
    cases op with
    | add e c =>
      refine ih ((s.add e c).1) (insert e m) (hw.add e c) ?_ ?_
      · intro x
        rw [SparseSet.has_add, Finset.mem_insert, Bool.or_eq_true, beq_iff_eq,
          hhas x]
      · rw [SparseSet.size_add]
        by_cases he : s.has e
        · rw [if_pos he, hsize, Finset.card_insert_of_mem ((hhas e).1 he)]
        · rw [if_neg he, hsize,
            Finset.card_insert_of_not_mem (fun hm => he ((hhas e).2 hm))]
    | remove e =>
      refine ih (s.remove e) (m.erase e) (hw.remove e) ?_ ?_
      · intro x
        rw [SparseSet.has_remove hw, Bool.and_eq_true, bne_iff_ne, hhas x,
          Finset.mem_erase]
        tauto
      · rw [SparseSet.size_remove hw]
        by_cases he : s.has e
        · rw [if_pos he, hsize, Finset.card_erase_of_mem ((hhas e).1 he)]
        · rw [if_neg he, hsize,
            Finset.erase_eq_of_not_mem (fun hm => he ((hhas e).2 hm))]

/-- Interleaving correctness of the swap-pop SparseSet: after any finite
sequence of add/remove operations from the empty set, the result is
well-formed, has(id) is true exactly for the ids left present by the net
effect of the sequence, and size counts exactly the present ids. -/
theorem sparseSet_interleaving {T : Type} (ops : List (SOp T)) :
    (runOps ops).Wf ∧
    (∀ x, (runOps ops).has x = true ↔ x ∈ netSet ops) ∧
    (runOps ops).size = (netSet ops).card := by
  refine runOps_aux ops SparseSet.empty ∅ SparseSet.Wf.empty ?_ rfl
  intro x
  simp [SparseSet.has, SparseSet.empty, aget]

/-- Claim C1: "for every finite interleaving of add/remove with unique ids,
has(id) matches the net effect, size equals the count of present ids, and
remove of a present id swap-removes, in particular when the removed element
occupies the last dense slot."  The delete-then-pop variant of
`SparseSet.remove` violates this at the concrete input
add(1,10); add(2,20); add(3,30); remove(3): removing the entity in the last
dense slot clears the whole set, so afterwards has(1) and has(2) are false
and size is 0, where the claim (and the repository's own sparseset.test.ts,
"should correctly handle removing the last element added") require has(1)
and has(2) true and size 2. -/
theorem sparseSet_removeDeleteThenPop_last_slot_clears_set :
    (((((SparseSet.empty.add 1 10).1.add 2 20).1.add 3 30).1 :
      SparseSet Nat).removeDeleteThenPop 3).has 1 = false ∧
    (((((SparseSet.empty.add 1 10).1.add 2 20).1.add 3 30).1 :
      SparseSet Nat).removeDeleteThenPop 3).has 2 = false ∧
    (((((SparseSet.empty.add 1 10).1.add 2 20).1.add 3 30).1 :
      SparseSet Nat).removeDeleteThenPop 3).has 3 = false ∧
    (((((SparseSet.empty.add 1 10).1.add 2 20).1.add 3 30).1 :
      SparseSet Nat).removeDeleteThenPop 3).size = 0 := by
  decide

/- ## The World data model (src/ecs/world.ts)

Component constructors are identified by Nat keys; `relKey` is the key of
the Relationship class.  A component value is either a Relationship (one
optional parent id and a set of child ids, the set being an insertion-
ordered duplicate-free list, as a JS `Set`) or a plain value.  Mutation is
explicit state passing; JS object aliasing of stored component instances is
modelled by updating the store entry in place (`SparseSet.modify`).

Structural observer callbacks are modelled as an event trace: each event
stands for the synchronous invocation of every callback registered for it
at that moment, in registration order (the source runs a for-loop over the
corresponding callback set at exactly that point). -/

inductive CompVal where
  | rel (parent : Option Nat) (children : List Nat)
  | plain (v : Nat)
  deriving Repr, DecidableEq

/-- A component instance together with its concrete constructor
(`constructorOf(component)` in the source). -/
structure CompInst where
  ctor : Nat
  val : CompVal
  deriving Repr, DecidableEq

/-- The constructor key of the Relationship component class. -/
def relKey : Nat := 0

inductive WEvent where
  | entityCreated (e : Nat)
  | entityRemoved (e : Nat)
  | compAdded (t e : Nat)
  | compRemoved (t e : Nat)
  | tagAdded (g e : Nat)
  | tagRemoved (g e : Nat)
  | ranCallback (c : Nat)
  | userShutdown (s : Nat)
  | assertFailed
  deriving Repr, DecidableEq

inductive WError where
  | entityDoesNotExist
  | circularRelationship
  deriving Repr, DecidableEq

/-- JS `Set.add`: append if absent (JS sets are insertion ordered). -/
def addIfAbsent (l : List Nat) (a : Nat) : List Nat :=
  if a ∈ l then l else l ++ [a]

structure World where
  /-- the live-entity set (a JS `Set`, insertion ordered). -/
  entities : List Nat
  /-- the monotonic id counter. -/
  nextEntityId : Nat
  /-- insertion-ordered key set of the componentMap AutoMap: every
  component type ever seen by this World. -/
  typesSeen : List Nat
  /-- componentMap contents; the AutoMap defaults any unseen key to a
  fresh empty SparseSet. -/
  store : Nat → SparseSet CompVal
  /-- static duck-typed `ecsTags` metadata per constructor (other than
  Relationship, which declares none). -/
  ecsTags : Nat → List Nat
  /-- per tag, per constructor SparseSet (the TagSet stores). -/
  tagStore : Nat → Nat → SparseSet CompVal
  entityCreatedCbs : List Nat
  entityRemovedCbs : List Nat
  compAddedCbs : Nat → List Nat
  compRemovedCbs : Nat → List Nat
  active : Bool
  /-- registered System instances, insertion ordered. -/
  systems : List Nat
  /-- the index by exact constructor. -/
  systemsByType : List (Nat × Nat)
  sysActive : Nat → Bool
  sysShutdownCbs : Nat → List Nat
  /-- the class chain of each instance: `i instanceof c` iff c is in it. -/
  sysCtorChain : Nat → List Nat

/-- The fully empty world, before the constructor body runs. -/
def World.emptyState : World :=
  { entities := [], nextEntityId := 0, typesSeen := [],
    store := fun _ => SparseSet.empty, ecsTags := fun _ => [],
    tagStore := fun _ _ => SparseSet.empty,
    entityCreatedCbs := [], entityRemovedCbs := [],
    compAddedCbs := fun _ => [], compRemovedCbs := fun _ => [],
    active := false, systems := [], systemsByType := [],
    sysActive := fun _ => false, sysShutdownCbs := fun _ => [],
    sysCtorChain := fun _ => [] }

/-- `entityExists(entity)`: membership in the live-entity set. -/
def World.entityExists (w : World) (e : Nat) : Bool :=
  w.entities.contains e

/-- `createEntity()`: allocate the next id, register it, fire
entity-created callbacks, return the id. -/
def World.createEntity (w : World) : World × List WEvent × Nat :=
  let e := w.nextEntityId
  ({ w with nextEntityId := e + 1, entities := addIfAbsent w.entities e },
   [WEvent.entityCreated e], e)

/-- The World constructor calls `createEntity()` once, reserving id 0 as
the singleton entity. -/
def World.init : World :=
  (World.emptyState.createEntity).1

/-- `AutoMap.get(key)` on the componentMap registers the key (inserting a
fresh empty store) the first time it is accessed; the contents function is
unchanged because the default is the empty store. -/
def World.registerType (w : World) (t : Nat) : World :=
  { w with typesSeen :=
      if t ∈ w.typesSeen then w.typesSeen else w.typesSeen ++ [t] }

/-- `tagsOf(component)`: the duck-typed static `ecsTags` of the
constructor, normalized to a list (absent / one tag / many).  The
Relationship class declares no tags. -/
def World.tagsOf (w : World) (t : Nat) : List Nat :=
  if t = relKey then [] else w.ecsTags t

/-- `getComponent(entity, ctor)`: `componentMap.get(ctor).get(entity) ??
null`.  There is no entity-existence check; the AutoMap access registers
the type. -/
def World.getComponent (w : World) (e t : Nat) : World × Option CompVal :=
  (w.registerType t, (w.store t).get e)

/-- `hasComponent(entity, ctor)`: `componentMap.get(ctor).has(entity)`.
No entity-existence check; the AutoMap access registers the type. -/
def World.hasComponent (w : World) (e t : Nat) : World × Bool :=
  (w.registerType t, (w.store t).has e)

def World.setStore (w : World) (t : Nat) (s : SparseSet CompVal) : World :=
  { w with store := fun x => if x = t then s else w.store x }

def World.setTagStore (w : World) (g t : Nat) (s : SparseSet CompVal) : World :=
  { w with tagStore := fun y =>
      if y = g then (fun x => if x = t then s else w.tagStore y x)
      else w.tagStore y }

/-- `removeComponent(entity, ctor)`: EntityDoesNotExist for an invalid id;
silent no-op when the entity lacks the component; otherwise removes from
the type's SparseSet, fires component-removed callbacks, and mirrors the
removal into every declared tag store with tag-removed callbacks. -/
def World.removeComponent (w : World) (e t : Nat) :
    World × List WEvent × Option WError :=
  if ¬ w.entityExists e then (w, [], some WError.entityDoesNotExist)
  else
    let w1 := w.registerType t
    if ¬ (w1.store t).has e then (w1, [], none)
    else
      let w2 := w1.setStore t ((w1.store t).remove e)
      let gs := w2.tagsOf t
      let w3 := gs.foldl
        (fun acc g => acc.setTagStore g t ((acc.tagStore g t).remove e)) w2
      (w3, WEvent.compRemoved t e :: gs.map (fun g => WEvent.tagRemoved g e),
       none)

/-- `addComponent(entity, component)`: EntityDoesNotExist for an invalid
id; if the entity already holds a component of the same concrete type it is
fully removed first (firing removal callbacks); then the new instance is
stored, component-added callbacks fire, and the instance is inserted into
every declared tag store with tag-added callbacks. -/
def World.addComponent (w : World) (e : Nat) (inst : CompInst) :
    World × List WEvent × Option WError :=
  if ¬ w.entityExists e then (w, [], some WError.entityDoesNotExist)
  else
    let t := inst.ctor
    let w1 := w.registerType t
    let res :=
      if (w1.store t).has e then
        match w1.removeComponent e t with
        | (w2, evs, _) => (w2, evs)
      else (w1, [])
    let w3 := res.1.setStore t (((res.1.store t).add e inst.val).1)
    let gs := w3.tagsOf t
    let w4 := gs.foldl
      (fun acc g => acc.setTagStore g t (((acc.tagStore g t).add e inst.val).1))
      w3
    (w4, res.2 ++ WEvent.compAdded t e :: gs.map (fun g => WEvent.tagAdded g e),
     none)

/- ## Relationship (src/ecs/relationship.ts) -/

/-- Read a stored value as a Relationship component.  The store at
`relKey` only ever holds Relationship instances (the key is the class
itself in the source). -/
def asRel : Option CompVal → Option (Option Nat × List Nat)
  | some (CompVal.rel p ch) => some (p, ch)
  | _ => none

/-- The Relationship component of `e`, if any (a read through the store;
no AutoMap registration, used where the surrounding operation has already
performed it). -/
def World.getRel (w : World) (e : Nat) : Option (Option Nat × List Nat) :=
  asRel ((w.store relKey).get e)

/-- Apply a parent/children field mutation to a stored Relationship
value. -/
def relMap (f : Option Nat × List Nat → Option Nat × List Nat) :
    CompVal → CompVal
  | CompVal.rel p ch =>
    match f (p, ch) with
    | (p2, ch2) => CompVal.rel p2 ch2
  | other => other

/-- A caller holding the Relationship object of `e` mutates its fields in
place; the store keeps pointing at the same object. -/
def World.updateRel (w : World) (e : Nat)
    (f : Option Nat × List Nat → Option Nat × List Nat) : World :=
  w.setStore relKey ((w.store relKey).modify e (relMap f))

namespace Relationship

/-- `Relationship.Unparent(world, parent, child)`: EntityDoesNotExist when
either id is invalid; no-op when either side lacks a Relationship
component; otherwise clears the child's parent pointer only if it
currently equals `parent`, and deletes the child from the parent's child
set.  Fires no callbacks. -/
def Unparent (w : World) (parent child : Nat) :
    World × List WEvent × Option WError :=
  if ¬ w.entityExists parent ∨ ¬ w.entityExists child then
    (w, [], some WError.entityDoesNotExist)
  else
    let w0 := w.registerType relKey
    match w0.getRel child with
    | none => (w0, [], none)
    | some (cp, _) =>
      match w0.getRel parent with
      | none => (w0, [], none)
      | some _ =>
        let w1 :=
          if cp = some parent then
            w0.updateRel child (fun pc => (none, pc.2))
          else w0
        (w1.updateRel parent (fun pc => (pc.1, pc.2.erase child)), [], none)

/-- Steps 4-6 of `Relationship.Parent`: lazily attach a Relationship to the
child, unparent it from a different previous parent, then add the child to
the parent's child set and point the child's parent at `parent`.  The
source tests the previous parent with a JS truthiness check
(`if (oldParent)`), which is also false for entity id 0: there the source
skips the (event-free) Unparent call that this model performs. -/
def parentFinish (w : World) (evs : List WEvent) (parent child : Nat) :
    World × List WEvent × Option WError :=
  let res :=
    match w.getRel child with
    | none =>
      match w.addComponent child ⟨relKey, CompVal.rel none []⟩ with
      | (w1, evs1, _) => (w1, evs1)
    | some _ => (w, [])
  let oldParent := (res.1.getRel child).bind (fun pc => pc.1)
  let res2 :=
    match oldParent with
    | some op =>
      match Unparent res.1 op child with
      | (w2, evs2, _) => (w2, evs2)
    | none => (res.1, [])
  let w3 := res2.1.updateRel parent (fun pc => (pc.1, addIfAbsent pc.2 child))
  let w4 := w3.updateRel child (fun pc => (some parent, pc.2))
  (w4, evs ++ res.2 ++ res2.2, none)

/-- The ancestor-chain walk of `Relationship.Parent` (its while loop):
follow parent pointers from `cur`, return true when `child` is found.
The loop guard `while (currentParent)` is a JS truthiness test, so it
also exits — before any comparison with `child` — when the chain reaches
entity id 0, which is falsy.  The source loop terminates exactly when
the chain is finite and acyclic; `fuel` bounds the iterations, and the
callers pass the number of live entities, which the chain length cannot
exceed on forest states. -/
def walk (w : World) : Nat → Option Nat → Nat → Bool
  | 0, _, _ => false
  | _ + 1, none, _ => false
  | fuel + 1, some cur, child =>
    if cur = 0 then false
    else if cur = child then true
    else walk w fuel ((w.getRel cur).bind (fun pc => pc.1)) child

/-- `Relationship.Parent(world, parent, child)`: EntityDoesNotExist when
either id is invalid.  When the parent has no Relationship component yet,
one is lazily attached and NO ancestor-chain cycle check happens;
otherwise the walk runs and a CircularRelationship error is returned, with
no mutation, when `child` is on the parent's ancestor chain (including
`parent` itself).  Then steps 4-6 run (`parentFinish`). -/
def Parent (w : World) (parent child : Nat) :
    World × List WEvent × Option WError :=
  if ¬ w.entityExists parent ∨ ¬ w.entityExists child then
    (w, [], some WError.entityDoesNotExist)
  else
    let w0 := w.registerType relKey
    match w0.getRel parent with
    | none =>
      match w0.addComponent parent ⟨relKey, CompVal.rel none []⟩ with
      | (w1, evs1, _) => parentFinish w1 evs1 parent child
    | some _ =>
      if walk w0 w0.entities.length (some parent) child then
        (w0, [], some WError.circularRelationship)
      else
        parentFinish w0 [] parent child

end Relationship

/-- `removeEntity(entity)`: EntityDoesNotExist for an invalid id; else, if
the entity has a Relationship, unparent it from its parent and recursively
remove every child first; then fire entity-removed callbacks; then remove
every component type ever seen by this World from the entity (silent
no-ops for types it never had); finally delete it from the live set.  The
recursion is structural on `fuel` (the source recursion terminates on
forest states, where the depth is bounded by the number of live
entities); the child list is the snapshot read at entry, which matches the
source's live-Set iteration because each recursive call deletes exactly
the current child from that set.  The source tests the parent pointer
with a JS truthiness check (`if (relationship.parent)`), which is also
false for entity id 0: there the source skips the (event-free) Unparent
call that this model performs. -/
def World.removeEntity : Nat → World → Nat → World × List WEvent × Option WError
  | 0, w, _ => (w, [], none)
  | fuel + 1, w, e =>
    if ¬ w.entityExists e then (w, [], some WError.entityDoesNotExist)
    else
      let w0 := w.registerType relKey
      let res : World × List WEvent :=
        match w0.getRel e with
        | some (p, children) =>
          let res1 : World × List WEvent :=
            match p with
            | some par =>
              match Relationship.Unparent w0 par e with
              | (w1, evs1, _) => (w1, evs1)
            | none => (w0, [])
          children.foldl
            (fun (acc : World × List WEvent) c =>
              match World.removeEntity fuel acc.1 c with
              | (w2, evs2, _) => (w2, acc.2 ++ evs2))
            res1
        | none => (w0, [])
      let res4 : World × List WEvent := res.1.typesSeen.foldl
        (fun (acc : World × List WEvent) t =>
          match acc.1.removeComponent e t with
          | (w3, evs4, _) => (w3, acc.2 ++ evs4))
        (res.1, [])
      ({ res4.1 with entities := res4.1.entities.erase e },
       res.2 ++ WEvent.entityRemoved e :: res4.2, none)

/- ## Systems (src/ecs/system.ts plus the World system registry) -/

/-- `System.__runShutdown()`: assert the system is active (a thrown
assertion otherwise, modelled as the assertFailed event); set inactive;
run every queued shutdown callback in insertion order and clear them;
invoke the user-defined `shutdown()` hook (the trailing userShutdown
event). -/
def World.runSysShutdown (w : World) (s : Nat) : World × List WEvent :=
  if ¬ w.sysActive s then (w, [WEvent.assertFailed])
  else
    ({ w with
        sysActive := fun x => if x = s then false else w.sysActive x,
        sysShutdownCbs := fun x => if x = s then [] else w.sysShutdownCbs x },
     (w.sysShutdownCbs s).map WEvent.ranCallback ++ [WEvent.userShutdown s])

/-- `removeSystem(ctor)`: exact-constructor lookup only; on a hit the
instance is deleted from both registries and its user-defined shutdown
hook is invoked DIRECTLY (`instance.shutdown?.()`), bypassing
`__runShutdown`'s active-flag and shutdown-callback bookkeeping; the
instance is returned.  On a miss null is returned — even when
`getSystem`'s instanceof fallback would find a subclass-compatible
instance. -/
def World.removeSystem (w : World) (ctor : Nat) :
    World × List WEvent × Option Nat :=
  match w.systemsByType.lookup ctor with
  | some inst =>
    ({ w with
        systems := w.systems.erase inst,
        systemsByType := w.systemsByType.filter (fun p => p.1 != ctor) },
     [WEvent.userShutdown inst], some inst)
  | none => (w, [], none)

/-- `getSystem(ctor)`: exact-type lookup first, else a linear scan for any
registered instance that is an `instanceof ctor` (subclass tolerant). -/
def World.getSystem (w : World) (ctor : Nat) : Option Nat :=
  match w.systemsByType.lookup ctor with
  | some inst => some inst
  | none => w.systems.find? (fun s => (w.sysCtorChain s).contains ctor)

/-- `World.shutdown()`: a logged no-op when the world is inactive; else
clears the world's active flag and runs every registered System's
`__runShutdown`, in registration order. -/
def World.shutdown (w : World) : World × List WEvent :=
  if ¬ w.active then (w, [])
  else
    w.systems.foldl
      (fun (acc : World × List WEvent) s =>
        match acc.1.runSysShutdown s with
        | (w2, evs2) => (w2, acc.2 ++ evs2))
      ({ w with active := false }, [])

/- ## World observer registries -/

/-- `onEntityCreated(callback)`: adds the callback to the Set-backed
registry and returns an unsubscribe closure (`offEntityCreated`). -/
def World.onEntityCreated (w : World) (cb : Nat) : World :=
  { w with entityCreatedCbs := addIfAbsent w.entityCreatedCbs cb }

/-- The unsubscribe closure returned by `onEntityCreated`: deletes the
callback from the registry. -/
def World.offEntityCreated (w : World) (cb : Nat) : World :=
  { w with entityCreatedCbs := w.entityCreatedCbs.erase cb }

/- ## EventManager (src/events/manager.ts) -/

structure EventManager where
  /-- per event type, the Set of registered listeners, insertion
  ordered. -/
  listeners : Nat → List Nat

def EventManager.emptyBus : EventManager := ⟨fun _ => []⟩

/-- `register(type, listener)`: adds to the per-type listener Set;
the returned unsubscribe closure is `unregister`. -/
def EventManager.register (m : EventManager) (t l : Nat) : EventManager :=
  ⟨fun x => if x = t then addIfAbsent (m.listeners t) l else m.listeners x⟩

/-- `unregister(type, listener)`: deletes from the per-type Set. -/
def EventManager.unregister (m : EventManager) (t l : Nat) : EventManager :=
  ⟨fun x => if x = t then (m.listeners t).erase l else m.listeners x⟩

/-- `notify(event, data)`: synchronously invokes every currently
registered listener for the event, in registration order, each exactly
once, with the payload — the invocation sequence is the listener list. -/
def EventManager.notifyList (m : EventManager) (t : Nat) : List Nat :=
  m.listeners t

/- ## EventQueue (src/events/queue.ts) -/

structure EventQueue where
  listeners : Nat → List Nat
  /-- the front buffer: a flat array of (event, payload) entries. -/
  queue : List (Nat × Nat)
  /-- the back buffer, written while hasFlushed is set. -/
  nextQueue : List (Nat × Nat)
  hasFlushed : Bool

def EventQueue.emptyQueue : EventQueue := ⟨fun _ => [], [], [], false⟩

def EventQueue.subscribe (q : EventQueue) (t l : Nat) : EventQueue :=
  { q with listeners := fun x =>
      if x = t then addIfAbsent (q.listeners t) l else q.listeners x }

/-- `push(event, data)`: appends to the back buffer when `hasFlushed` is
set (it is set by `dispatchQueue` and cleared only by `clear`), else to
the front buffer. -/
def EventQueue.push (q : EventQueue) (ev pl : Nat) : EventQueue :=
  if q.hasFlushed then { q with nextQueue := q.nextQueue ++ [(ev, pl)] }
  else { q with queue := q.queue ++ [(ev, pl)] }

/-- `dispatchQueue()`: sets `hasFlushed`, then for every (event, payload)
pair in the front buffer, in insertion order, invokes every listener of
the event, WITHOUT clearing the buffer.  Returns the (listener, payload)
invocation sequence.  The flag is set before the first listener runs, so
a push from inside a listener lands in the back buffer — it behaves as a
push on the returned state. -/
def EventQueue.dispatchQueue (q : EventQueue) : EventQueue × List (Nat × Nat) :=
  ({ q with hasFlushed := true },
   q.queue.foldl
     (fun acc p => acc ++ (q.listeners p.1).map (fun l => (l, p.2))) [])

/-- `clear()`: swap front and back buffers (the old front is emptied) and
clear the hasFlushed flag. -/
def EventQueue.clear (q : EventQueue) : EventQueue :=
  { q with queue := q.nextQueue, nextQueue := [], hasFlushed := false }

/-- `dispatchAndClear()` = `dispatchQueue()` then `clear()`. -/
def EventQueue.dispatchAndClear (q : EventQueue) : EventQueue × List (Nat × Nat) :=
  (q.dispatchQueue.1.clear, q.dispatchQueue.2)

/- ## Helper lemmas on JS-Set lists -/

theorem addIfAbsent_idem (l : List Nat) (a : Nat) :
    addIfAbsent (addIfAbsent l a) a = addIfAbsent l a := by
  unfold addIfAbsent
  by_cases h : a ∈ l
  · simp [h]
  · simp [h]

theorem count_addIfAbsent {l : List Nat} (hn : l.Nodup) (a : Nat) :
    (addIfAbsent l a).count a = 1 := by
  unfold addIfAbsent
  by_cases h : a ∈ l
  · rw [if_pos h]
    exact List.count_eq_one_of_mem hn h
  · rw [if_neg h, List.count_append, List.count_eq_zero_of_not_mem h,
      List.count_singleton]
    simp

theorem nodup_addIfAbsent {l : List Nat} (hn : l.Nodup) (a : Nat) :
    (addIfAbsent l a).Nodup := by
  unfold addIfAbsent
  by_cases h : a ∈ l
  · simpa [h] using hn
  · simp [h, List.nodup_append, hn, List.Disjoint]
    intro x hx hxa
    subst hxa
    exact h hx

theorem count_erase_of_nodup {l : List Nat} (hn : l.Nodup) (a : Nat) :
    (l.erase a).count a = 0 := by
  rw [List.count_erase_self]
  have h1 : l.count a ≤ 1 := List.nodup_iff_count_le_one.1 hn a
  omega

theorem SparseSet.get_eq_none_of_not_has {T : Type} {s : SparseSet T}
    {e : Nat} (h : s.has e = false) : s.get e = none := by
  have hag : aget s.sparse e = none := by
    rw [← Option.not_isSome_iff_eq_none]
    intro hcontra
    rw [show (aget s.sparse e).isSome = s.has e from rfl, h] at hcontra
    exact Bool.false_ne_true hcontra
  unfold SparseSet.get
  rw [hag]

/-- Claim C2: the claim asserts the parent-to-child Relationship graph
stays acyclic for every sequence of operations, in particular for
`Relationship.Parent` with parent equal to child.  The code violates it:
when the parent entity carries no Relationship component yet, the
ancestor-chain cycle check is skipped entirely (it only runs in the
else-branch for an already-attached parent), so `Parent(w, e, e)` on a
fresh entity attaches a Relationship and records `e` as its own parent and
its own child — a self-loop — and returns success rather than
CircularRelationship. -/
theorem relationship_parent_self_loop :
    (Relationship.Parent (World.init.createEntity).1
      (World.init.createEntity).2.2 (World.init.createEntity).2.2).2.2 =
        none ∧
    (Relationship.Parent (World.init.createEntity).1
      (World.init.createEntity).2.2 (World.init.createEntity).2.2).1.getRel
        (World.init.createEntity).2.2 =
      some (some (World.init.createEntity).2.2,
        [(World.init.createEntity).2.2]) := by
  decide

/-- Claim C8 counterexample: `getComponent` and `hasComponent` perform no
entity-existence check at all: for the id 5, which is not in the fresh
world's live-entity set, `getComponent` returns null (its return type has
no error case) and `hasComponent` returns false, where the claim requires
the EntityDoesNotExist error from both. -/
theorem getComponent_invalid_id_returns_null :
    World.init.entityExists 5 = false ∧
    (World.init.getComponent 5 7).2 = none ∧
    (World.init.hasComponent 5 7).2 = false := by
  decide

/-- Claim C8 (amended): every entity-targeted MUTATING operation —
removeEntity, addComponent, removeComponent, Relationship.Parent,
Relationship.Unparent — given an id outside the live-entity set returns
(does not throw) the EntityDoesNotExist error and performs no state
mutation (the world is returned unchanged and no callbacks fire).
getComponent and hasComponent, by contrast, do not check existence: for an
id with no entry in the queried store they return null and false
respectively, never an error. -/
theorem entity_ops_invalid_id_error_no_mutation
    (w : World) (e x t fuel : Nat) (inst : CompInst)
    (he : w.entityExists e = false) (hst : (w.store t).has e = false) :
    World.removeEntity (fuel + 1) w e = (w, [], some WError.entityDoesNotExist) ∧
    w.addComponent e inst = (w, [], some WError.entityDoesNotExist) ∧
    w.removeComponent e t = (w, [], some WError.entityDoesNotExist) ∧
    Relationship.Parent w e x = (w, [], some WError.entityDoesNotExist) ∧
    Relationship.Parent w x e = (w, [], some WError.entityDoesNotExist) ∧
    Relationship.Unparent w e x = (w, [], some WError.entityDoesNotExist) ∧
    Relationship.Unparent w x e = (w, [], some WError.entityDoesNotExist) ∧
    (w.getComponent e t).2 = none ∧
    (w.hasComponent e t).2 = false := by
  refine ⟨?_, ?_, ?_, ?_, ?_, ?_, ?_, ?_, ?_⟩
  · simp [World.removeEntity, he]
  · simp [World.addComponent, he]
  · simp [World.removeComponent, he]
  · simp [Relationship.Parent, he]
  · simp [Relationship.Parent, he]
  · simp [Relationship.Unparent, he]
  · simp [Relationship.Unparent, he]
  · exact SparseSet.get_eq_none_of_not_has hst
  · exact hst

/-- Witness for the amended C8 at a concrete input: entity id 5 does not
exist in a fresh world, addComponent and removeEntity return the
EntityDoesNotExist error with the world unchanged, and getComponent
returns null. -/
theorem entity_ops_invalid_id_error_no_mutation_witness :
    World.init.entityExists 5 = false ∧
    (World.init.store 7).has 5 = false ∧
    World.removeEntity 1 World.init 5 =
      (World.init, [], some WError.entityDoesNotExist) ∧
    World.init.addComponent 5 ⟨7, CompVal.plain 1⟩ =
      (World.init, [], some WError.entityDoesNotExist) ∧
    Relationship.Parent World.init 5 0 =
      (World.init, [], some WError.entityDoesNotExist) ∧
    (World.init.getComponent 5 7).2 = none := by
  refine ⟨by decide, by decide, ?_, ?_, ?_, ?_⟩
  · exact (entity_ops_invalid_id_error_no_mutation World.init 5 0 7 0
      ⟨7, CompVal.plain 1⟩ (by decide) (by decide)).1
  · exact (entity_ops_invalid_id_error_no_mutation World.init 5 0 7 0
      ⟨7, CompVal.plain 1⟩ (by decide) (by decide)).2.1
  · exact (entity_ops_invalid_id_error_no_mutation World.init 5 0 7 0
      ⟨7, CompVal.plain 1⟩ (by decide) (by decide)).2.2.2.1
  · exact (entity_ops_invalid_id_error_no_mutation World.init 5 0 7 0
      ⟨7, CompVal.plain 1⟩ (by decide) (by decide)).2.2.2.2.2.2.2.1

/-- Claim C7 counterexample: the claim says push appends to the front
buffer in every state except while execution is currently inside
dispatchQueue().  In the code the hasFlushed flag is set by dispatchQueue
and stays set after it returns, until clear(): a push issued after
dispatchQueue has returned — outside any dispatch — still appends to the
BACK buffer, so a second dispatchQueue delivers only the old payload. -/
theorem eventQueue_push_after_dispatch_goes_to_back :
    ((((EventQueue.emptyQueue.subscribe 0 5).push 0 1).dispatchQueue).1.push
        0 2).queue = [(0, 1)] ∧
    ((((EventQueue.emptyQueue.subscribe 0 5).push 0 1).dispatchQueue).1.push
        0 2).nextQueue = [(0, 2)] ∧
    (((((EventQueue.emptyQueue.subscribe 0 5).push 0 1).dispatchQueue).1.push
        0 2).dispatchQueue).2 = [(5, 1)] := by
  decide

/-- Claim C7 (amended): push appends to the front buffer iff dispatchQueue
has not run since the last clear — the hasFlushed flag is set by
dispatchQueue before any listener runs and cleared only by clear, so the
back buffer also receives pushes issued after dispatchQueue has returned.
Consequently, from a queue with empty buffers and a clear flag: after
push(ev, x), dispatchQueue invokes each listener subscribed to ev exactly
once with x, in registration order; a second dispatchQueue with no
intervening push or clear repeats the same invocations; a push of y while
the flag is set (in particular one issued from inside a listener during
dispatchQueue) lands in the back buffer, leaves the front buffer
untouched, and is delivered exactly by the dispatchQueue that follows the
next clear(). -/
theorem eventQueue_double_buffering
    (q : EventQueue) (ev x y : Nat)
    (hq : q.queue = []) (hn : q.nextQueue = []) (hf : q.hasFlushed = false) :
    ((q.push ev x).dispatchQueue).2 =
      (q.listeners ev).map (fun l => (l, x)) ∧
    ((((q.push ev x).dispatchQueue).1).dispatchQueue).2 =
      (q.listeners ev).map (fun l => (l, x)) ∧
    ((((q.push ev x).dispatchQueue).1).push ev y).queue = [(ev, x)] ∧
    ((((q.push ev x).dispatchQueue).1).push ev y).nextQueue = [(ev, y)] ∧
    (((((((q.push ev x).dispatchQueue).1).push ev y)).clear).dispatchQueue).2 =
      (q.listeners ev).map (fun l => (l, y)) := by
  refine ⟨?_, ?_, ?_, ?_, ?_⟩ <;>
    simp [EventQueue.push, EventQueue.dispatchQueue, EventQueue.clear,
      hq, hn, hf]

/-- Witness for the amended C7 at a concrete input: listener 5 subscribed
to event 0; push 1, dispatch delivers (5, 1); dispatching again delivers
(5, 1) again; pushing 2 after the dispatch lands in the back buffer; after
clear, dispatch delivers (5, 2). -/
theorem eventQueue_double_buffering_witness :
    (EventQueue.emptyQueue.subscribe 0 5).queue = [] ∧
    (EventQueue.emptyQueue.subscribe 0 5).nextQueue = [] ∧
    (EventQueue.emptyQueue.subscribe 0 5).hasFlushed = false ∧
    ((((EventQueue.emptyQueue.subscribe 0 5).push 0 1).dispatchQueue)).2 =
      [(5, 1)] ∧
    (((((EventQueue.emptyQueue.subscribe 0 5).push 0
        1).dispatchQueue).1).dispatchQueue).2 = [(5, 1)] ∧
    ((((((((EventQueue.emptyQueue.subscribe 0 5).push 0
        1).dispatchQueue).1).push 0 2)).clear).dispatchQueue).2 = [(5, 2)] := by
  refine ⟨by decide, by decide, by decide, ?_, ?_, ?_⟩
  · exact (eventQueue_double_buffering (EventQueue.emptyQueue.subscribe 0 5)
      0 1 2 (by decide) (by decide) (by decide)).1
  · exact (eventQueue_double_buffering (EventQueue.emptyQueue.subscribe 0 5)
      0 1 2 (by decide) (by decide) (by decide)).2.1
  · exact (eventQueue_double_buffering (EventQueue.emptyQueue.subscribe 0 5)
      0 1 2 (by decide) (by decide) (by decide)).2.2.2.2

/-- Claim C10: registering the same listener twice for the same event type
on the EventManager, or the same callback twice on a World observer
registry, is idempotent (the registries are JS Sets): the registry after
two registrations equals the registry after one, a subsequent notify (or
entity-created dispatch) invokes the listener exactly once, and a single
unregister (or one call of the returned unsubscribe closure) removes it
entirely. -/
theorem observer_registration_idempotent
    (m : EventManager) (t l : Nat) (hn : (m.listeners t).Nodup)
    (w : World) (cb : Nat) (hw : w.entityCreatedCbs.Nodup) :
    (m.register t l).register t l = m.register t l ∧
    ((m.register t l).notifyList t).count l = 1 ∧
    (((m.register t l).unregister t l).listeners t).count l = 0 ∧
    (w.onEntityCreated cb).onEntityCreated cb = w.onEntityCreated cb ∧
    ((w.onEntityCreated cb).entityCreatedCbs).count cb = 1 ∧
    (((w.onEntityCreated cb).offEntityCreated cb).entityCreatedCbs).count cb
      = 0 := by
  refine ⟨?_, ?_, ?_, ?_, ?_, ?_⟩
  · unfold EventManager.register
    congr 1
    funext x
    by_cases hx : x = t
    · simp [hx, addIfAbsent_idem]
    · simp [hx]
  · unfold EventManager.notifyList EventManager.register
    simp [count_addIfAbsent hn]
  · unfold EventManager.unregister EventManager.register
    simp [count_erase_of_nodup (nodup_addIfAbsent hn l)]
  · simp [World.onEntityCreated, addIfAbsent_idem]
  · simp [World.onEntityCreated, count_addIfAbsent hw]
  · simp [World.onEntityCreated, World.offEntityCreated,
      count_erase_of_nodup (nodup_addIfAbsent hw cb)]

/-- Witness for C10 at a concrete input: an empty bus and a fresh world,
event type 0, listener 5, world callback 3. -/
theorem observer_registration_idempotent_witness :
    (EventManager.emptyBus.listeners 0).Nodup ∧
    World.init.entityCreatedCbs.Nodup ∧
    ((EventManager.emptyBus.register 0 5).register 0 5 =
      EventManager.emptyBus.register 0 5) ∧
    ((EventManager.emptyBus.register 0 5).notifyList 0).count 5 = 1 ∧
    (((EventManager.emptyBus.register 0 5).unregister 0 5).listeners 0).count 5
      = 0 ∧
    ((World.init.onEntityCreated 3).entityCreatedCbs).count 3 = 1 := by
  refine ⟨by decide, by decide, ?_, ?_, ?_, ?_⟩
  · exact (observer_registration_idempotent EventManager.emptyBus 0 5
      (by decide) World.init 3 (by decide)).1
  · exact (observer_registration_idempotent EventManager.emptyBus 0 5
      (by decide) World.init 3 (by decide)).2.1
  · exact (observer_registration_idempotent EventManager.emptyBus 0 5
      (by decide) World.init 3 (by decide)).2.2.1
  · exact (observer_registration_idempotent EventManager.emptyBus 0 5
      (by decide) World.init 3 (by decide)).2.2.2.2.1

/-- Claim C9: `removeSystem(ctor)` performs an exact-constructor lookup
only — for a constructor that is merely subclass-compatible it returns
null and mutates nothing, even though `getSystem`'s instanceof fallback
finds the instance — and on an exact hit it invokes the instance's
user-defined shutdown hook directly, leaving the System's active flag true
and its queued shutdown callbacks present and unrun.  `World.shutdown()`
instead clears the world and system active flags and runs and clears the
queued shutdown callbacks before invoking the user shutdown hook. -/
theorem removeSystem_bypasses_shutdown_bookkeeping
    (w : World) (ctor sub inst : Nat)
    (hlook : w.systemsByType.lookup ctor = some inst)
    (hsub : w.systemsByType.lookup sub = none)
    (hchain : (w.sysCtorChain inst).contains sub = true)
    (hsys : w.systems = [inst])
    (hact : w.sysActive inst = true)
    (hwact : w.active = true) :
    (w.removeSystem ctor).2.1 = [WEvent.userShutdown inst] ∧
    (w.removeSystem ctor).2.2 = some inst ∧
    ((w.removeSystem ctor).1).sysActive inst = true ∧
    ((w.removeSystem ctor).1).sysShutdownCbs inst = w.sysShutdownCbs inst ∧
    (w.removeSystem sub).2.2 = none ∧
    (w.removeSystem sub).1 = w ∧
    (w.getSystem sub).isSome = true ∧
    (w.shutdown).2 =
      (w.sysShutdownCbs inst).map WEvent.ranCallback ++
        [WEvent.userShutdown inst] ∧
    ((w.shutdown).1).active = false ∧
    ((w.shutdown).1).sysActive inst = false ∧
    ((w.shutdown).1).sysShutdownCbs inst = [] := by
  refine ⟨?_, ?_, ?_, ?_, ?_, ?_, ?_, ?_, ?_, ?_, ?_⟩
  · simp [World.removeSystem, hlook]
  · simp [World.removeSystem, hlook]
  · simp [World.removeSystem, hlook, hact]
  · simp [World.removeSystem, hlook]
  · simp [World.removeSystem, hsub]
  · simp [World.removeSystem, hsub]
  · have hmem : sub ∈ w.sysCtorChain inst := by simpa using hchain
    simp [World.getSystem, hsub, hsys, List.find?_cons, hmem]
  · simp [World.shutdown, hwact, hsys, World.runSysShutdown, hact]
  · simp [World.shutdown, hwact, hsys, World.runSysShutdown, hact]
  · simp [World.shutdown, hwact, hsys, World.runSysShutdown, hact]
  · simp [World.shutdown, hwact, hsys, World.runSysShutdown, hact]

/-- Witness for C9 at a concrete input: one System instance 7 registered
under exact constructor 4 with class chain [4, 5], active, with queued
shutdown callbacks [9, 10], in an active world. -/
theorem removeSystem_bypasses_shutdown_bookkeeping_witness :
    ({ World.emptyState with
        active := true, systems := [7], systemsByType := [(4, 7)],
        sysActive := fun s => s == 7,
        sysShutdownCbs := fun s => if s == 7 then [9, 10] else [],
        sysCtorChain := fun s => if s == 7 then [4, 5] else [] } :
      World).systemsByType.lookup 4 = some 7 ∧
    (({ World.emptyState with
        active := true, systems := [7], systemsByType := [(4, 7)],
        sysActive := fun s => s == 7,
        sysShutdownCbs := fun s => if s == 7 then [9, 10] else [],
        sysCtorChain := fun s => if s == 7 then [4, 5] else [] } :
      World).removeSystem 4).2.1 = [WEvent.userShutdown 7] ∧
    ((({ World.emptyState with
        active := true, systems := [7], systemsByType := [(4, 7)],
        sysActive := fun s => s == 7,
        sysShutdownCbs := fun s => if s == 7 then [9, 10] else [],
        sysCtorChain := fun s => if s == 7 then [4, 5] else [] } :
      World).removeSystem 4).1).sysActive 7 = true ∧
    (({ World.emptyState with
        active := true, systems := [7], systemsByType := [(4, 7)],
        sysActive := fun s => s == 7,
        sysShutdownCbs := fun s => if s == 7 then [9, 10] else [],
        sysCtorChain := fun s => if s == 7 then [4, 5] else [] } :
      World).removeSystem 5).2.2 = none ∧
    (({ World.emptyState with
        active := true, systems := [7], systemsByType := [(4, 7)],
        sysActive := fun s => s == 7,
        sysShutdownCbs := fun s => if s == 7 then [9, 10] else [],
        sysCtorChain := fun s => if s == 7 then [4, 5] else [] } :
      World).getSystem 5).isSome = true ∧
    (({ World.emptyState with
        active := true, systems := [7], systemsByType := [(4, 7)],
        sysActive := fun s => s == 7,
        sysShutdownCbs := fun s => if s == 7 then [9, 10] else [],
        sysCtorChain := fun s => if s == 7 then [4, 5] else [] } :
      World).shutdown).2 =
      [WEvent.ranCallback 9, WEvent.ranCallback 10, WEvent.userShutdown 7] := by
  refine ⟨by decide, ?_, ?_, ?_, ?_, ?_⟩
  · exact (removeSystem_bypasses_shutdown_bookkeeping _ 4 5 7 (by decide)
      (by decide) (by decide) rfl (by decide) rfl).1
  · exact (removeSystem_bypasses_shutdown_bookkeeping _ 4 5 7 (by decide)
      (by decide) (by decide) rfl (by decide) rfl).2.2.1
  · exact (removeSystem_bypasses_shutdown_bookkeeping _ 4 5 7 (by decide)
      (by decide) (by decide) rfl (by decide) rfl).2.2.2.2.1
  · exact (removeSystem_bypasses_shutdown_bookkeeping _ 4 5 7 (by decide)
      (by decide) (by decide) rfl (by decide) rfl).2.2.2.2.2.2.1
  · exact (removeSystem_bypasses_shutdown_bookkeeping _ 4 5 7 (by decide)
      (by decide) (by decide) rfl (by decide) rfl).2.2.2.2.2.2.2.1

/- ## Frame lemmas for World operations -/

theorem tagRemoveFold_store (gs : List Nat) (w : World) (e t : Nat) :
    (gs.foldl (fun acc g => acc.setTagStore g t ((acc.tagStore g t).remove e))
      w).store = w.store := by
  induction gs generalizing w with
  | nil => rfl
  | cons g gs ih =>
    simp only [List.foldl_cons]
    exact ih _

theorem tagRemoveFold_entities (gs : List Nat) (w : World) (e t : Nat) :
    (gs.foldl (fun acc g => acc.setTagStore g t ((acc.tagStore g t).remove e))
      w).entities = w.entities := by
  induction gs generalizing w with
  | nil => rfl
  | cons g gs ih =>
    simp only [List.foldl_cons]
    exact ih _

theorem tagRemoveFold_typesSeen (gs : List Nat) (w : World) (e t : Nat) :
    (gs.foldl (fun acc g => acc.setTagStore g t ((acc.tagStore g t).remove e))
      w).typesSeen = w.typesSeen := by
  induction gs generalizing w with
  | nil => rfl
  | cons g gs ih =>
    simp only [List.foldl_cons]
    exact ih _

theorem tagRemoveFold_ecsTags (gs : List Nat) (w : World) (e t : Nat) :
    (gs.foldl (fun acc g => acc.setTagStore g t ((acc.tagStore g t).remove e))
      w).ecsTags = w.ecsTags := by
  induction gs generalizing w with
  | nil => rfl
  | cons g gs ih =>
    simp only [List.foldl_cons]
    exact ih _

theorem tagAddFold_store (gs : List Nat) (w : World) (e t : Nat) (v : CompVal) :
    (gs.foldl
      (fun acc g => acc.setTagStore g t (((acc.tagStore g t).add e v).1))
      w).store = w.store := by
  induction gs generalizing w with
  | nil => rfl
  | cons g gs ih =>
    simp only [List.foldl_cons]
    exact ih _

theorem tagAddFold_entities (gs : List Nat) (w : World) (e t : Nat) (v : CompVal) :
    (gs.foldl
      (fun acc g => acc.setTagStore g t (((acc.tagStore g t).add e v).1))
      w).entities = w.entities := by
  induction gs generalizing w with
  | nil => rfl
  | cons g gs ih =>
    simp only [List.foldl_cons]
    exact ih _

theorem tagAddFold_typesSeen (gs : List Nat) (w : World) (e t : Nat) (v : CompVal) :
    (gs.foldl
      (fun acc g => acc.setTagStore g t (((acc.tagStore g t).add e v).1))
      w).typesSeen = w.typesSeen := by
  induction gs generalizing w with
  | nil => rfl
  | cons g gs ih =>
    simp only [List.foldl_cons]
    exact ih _

theorem tagAddFold_ecsTags (gs : List Nat) (w : World) (e t : Nat) (v : CompVal) :
    (gs.foldl
      (fun acc g => acc.setTagStore g t (((acc.tagStore g t).add e v).1))
      w).ecsTags = w.ecsTags := by
  induction gs generalizing w with
  | nil => rfl
  | cons g gs ih =>
    simp only [List.foldl_cons]
    exact ih _

/-- The effect of `removeComponent` on an existing entity that holds the
component: one component-removed event followed by the tag-removed events,
the component struck from the type's store, entities unchanged. -/
theorem removeComponent_present (w : World) (e t : Nat)
    (he : w.entityExists e = true) (hhas : (w.store t).has e = true) :
    (w.removeComponent e t).2.2 = none ∧
    (w.removeComponent e t).2.1 =
      WEvent.compRemoved t e ::
        (w.tagsOf t).map (fun g => WEvent.tagRemoved g e) ∧
    ((w.removeComponent e t).1).store =
      (fun x => if x = t then (w.store t).remove e else w.store x) ∧
    ((w.removeComponent e t).1).entities = w.entities ∧
    ((w.removeComponent e t).1).typesSeen = (w.registerType t).typesSeen ∧
    ((w.removeComponent e t).1).ecsTags = w.ecsTags := by
  unfold World.removeComponent
  rw [if_neg (by simp [he] : ¬ ¬ w.entityExists e = true)]
  rw [if_neg (by simp [show ((w.registerType t).store t).has e = true from hhas] :
    ¬ ¬ ((w.registerType t).store t).has e = true)]
  refine ⟨rfl, rfl, ?_, ?_, ?_, ?_⟩
  · rw [tagRemoveFold_store]
    rfl
  · rw [tagRemoveFold_entities]
    rfl
  · rw [tagRemoveFold_typesSeen]
    rfl
  · rw [tagRemoveFold_ecsTags]
    rfl

theorem tagsOf_congr {w1 w2 : World} (h : w1.ecsTags = w2.ecsTags) (t : Nat) :
    w1.tagsOf t = w2.tagsOf t := by
  unfold World.tagsOf
  rw [h]

theorem registerType_eq_of_mem {w : World} {t : Nat} (h : t ∈ w.typesSeen) :
    w.registerType t = w := by
  unfold World.registerType
  rw [if_pos h]

theorem self_mem_typesSeen_registerType (w : World) (t : Nat) :
    t ∈ (w.registerType t).typesSeen := by
  unfold World.registerType
  by_cases h : t ∈ w.typesSeen
  · simp [h]
  · simp [h]

theorem mem_typesSeen_registerType {w : World} {t2 : Nat} (t : Nat)
    (h : t2 ∈ w.typesSeen) : t2 ∈ (w.registerType t).typesSeen := by
  unfold World.registerType
  by_cases ht : t ∈ w.typesSeen
  · simpa [ht] using h
  · simp [ht, h]

/-- The effect of `addComponent` on an entity that already holds a
component of the same concrete type: the old instance is fully removed
first (component-removed and tag-removed events), then the new one is
stored (component-added and tag-added events); the type's store ends at
remove-then-add. -/
theorem addComponent_replace_proj (w : World) (e t : Nat) (v2 : CompVal)
    (he : w.entityExists e = true) (hhas : (w.store t).has e = true) :
    (w.addComponent e ⟨t, v2⟩).2.2 = none ∧
    (w.addComponent e ⟨t, v2⟩).2.1 =
      WEvent.compRemoved t e ::
        ((w.tagsOf t).map (fun g => WEvent.tagRemoved g e) ++
          WEvent.compAdded t e ::
            (w.tagsOf t).map (fun g => WEvent.tagAdded g e)) ∧
    ((w.addComponent e ⟨t, v2⟩).1).store =
      (fun x =>
        if x = t then (((w.store t).remove e).add e v2).1 else w.store x) ∧
    ((w.addComponent e ⟨t, v2⟩).1).entities = w.entities ∧
    (∀ t2, t2 ∈ w.typesSeen → t2 ∈ ((w.addComponent e ⟨t, v2⟩).1).typesSeen) := by
  have h := removeComponent_present (w.registerType t) e t he hhas
  rcases hrc : (w.registerType t).removeComponent e t with ⟨w2, evs, err⟩
  rw [hrc] at h
  obtain ⟨h1, h2, h3, h4, h5, h6⟩ := h
  simp only at h1 h2 h3 h4 h5 h6
  unfold World.addComponent
  rw [if_neg (by simp [he] : ¬ ¬ w.entityExists e = true)]
  simp only
  rw [if_pos (show ((w.registerType t).store t).has e = true from hhas)]
  rw [hrc]
  simp only
  have htags : w2.tagsOf t = w.tagsOf t :=
    tagsOf_congr (by exact h6) t
  have htags3 : ∀ s : SparseSet CompVal,
      (w2.setStore t s).tagsOf t = w.tagsOf t := fun s => htags
  refine ⟨trivial, ?_, ?_, ?_, ?_⟩
  · rw [h2, htags3]
    have hreg : (w.registerType t).tagsOf t = w.tagsOf t := rfl
    rw [hreg, List.cons_append]
  · rw [tagAddFold_store]
    simp only [World.setStore]
    rw [h3]
    funext x
    by_cases hx : x = t <;> simp [hx, World.registerType]
  · rw [tagAddFold_entities]
    simp only [World.setStore]
    exact h4
  · intro t2 ht2
    rw [tagAddFold_typesSeen]
    simp only [World.setStore]
    rw [h5]
    exact mem_typesSeen_registerType t (mem_typesSeen_registerType t ht2)

/-- Claim C5: for an existing entity `e` already holding a component of
concrete type `t`, `addComponent(e, v2)` succeeds, its callback trace
restricted to component-removed(t)/component-added(t) events is exactly
one removal followed by one addition (each registered callback is invoked
once per event, so exactly one extra pair fires, in that order), and
afterwards `getComponent` returns `v2` — the type's store again holds a
single slot for `e`, its size unchanged. -/
theorem addComponent_second_instance_replaces
    (w : World) (e t : Nat) (v2 : CompVal)
    (hw : (w.store t).Wf) (he : w.entityExists e = true)
    (hhas : (w.store t).has e = true) :
    (w.addComponent e ⟨t, v2⟩).2.2 = none ∧
    ((w.addComponent e ⟨t, v2⟩).2.1).filter
      (fun ev => ev == WEvent.compRemoved t e || ev == WEvent.compAdded t e) =
      [WEvent.compRemoved t e, WEvent.compAdded t e] ∧
    (((w.addComponent e ⟨t, v2⟩).1).store t).get e = some v2 ∧
    (((w.addComponent e ⟨t, v2⟩).1).store t).size = (w.store t).size := by
  obtain ⟨h1, h2, h3, h4⟩ := addComponent_replace_proj w e t v2 he hhas
  have hwr : ((w.store t).remove e).Wf := hw.remove e
  have hhr : ((w.store t).remove e).has e = false := by
    rw [SparseSet.has_remove hw]
    simp
  refine ⟨h1, ?_, ?_, ?_⟩
  · rw [h2]
    simp only [List.filter_cons, List.filter_append, List.filter_map]
    have hfr : List.filter
        ((fun ev => ev == WEvent.compRemoved t e || ev == WEvent.compAdded t e)
          ∘ fun g => WEvent.tagRemoved g e) (w.tagsOf t) = [] := by
      rw [List.filter_eq_nil_iff]
      intro a ha
      simp
    have hfa : List.filter
        ((fun ev => ev == WEvent.compRemoved t e || ev == WEvent.compAdded t e)
          ∘ fun g => WEvent.tagAdded g e) (w.tagsOf t) = [] := by
      rw [List.filter_eq_nil_iff]
      intro a ha
      simp
    rw [hfr, hfa]
    simp
  · rw [h3]
    simp only [if_true]
    exact SparseSet.get_add_self hwr hhr v2
  · rw [h3]
    simp only [if_true]
    rw [SparseSet.size_add]
    rw [if_neg (by simp [hhr])]
    rw [SparseSet.size_remove hw, if_pos hhas]
    have hpos : 0 < (w.store t).size := by
      have hmem := hw.has_iff_mem_dense.1 hhas
      exact List.length_pos_of_mem hmem
    omega

/-- Witness for C5 at a concrete input: entity 0 of a fresh world holds a
plain component of type 7; adding a second instance fires exactly the
removed/added pair for type 7 and getComponent afterwards returns the
second instance. -/
theorem addComponent_second_instance_replaces_witness :
    (((World.init.addComponent 0 ⟨7, CompVal.plain 1⟩).1).store 7).Wf ∧
    ((World.init.addComponent 0 ⟨7, CompVal.plain 1⟩).1).entityExists 0 =
      true ∧
    (((World.init.addComponent 0 ⟨7, CompVal.plain 1⟩).1).store 7).has 0 =
      true ∧
    ((((World.init.addComponent 0 ⟨7, CompVal.plain 1⟩).1).addComponent 0
        ⟨7, CompVal.plain 2⟩).2.1).filter
      (fun ev => ev == WEvent.compRemoved 7 0 || ev == WEvent.compAdded 7 0) =
      [WEvent.compRemoved 7 0, WEvent.compAdded 7 0] ∧
    (((((World.init.addComponent 0 ⟨7, CompVal.plain 1⟩).1).addComponent 0
        ⟨7, CompVal.plain 2⟩).1).store 7).get 0 = some (CompVal.plain 2) := by
  refine ⟨by decide, by decide, by decide, ?_, ?_⟩
  · exact (addComponent_second_instance_replaces _ 0 7 (CompVal.plain 2)
      (by decide) (by decide) (by decide)).2.1
  · exact (addComponent_second_instance_replaces _ 0 7 (CompVal.plain 2)
      (by decide) (by decide) (by decide)).2.2.1

/- ## componentIterator (src/ecs/world.ts) -/

/-- The inner probe loop of componentIterator: read every requested store
for `e`, in order, stopping at the first missing component (the
`continue outer`). -/
def World.probeAll (w : World) : List Nat → Nat → Option (List CompVal)
  | [], _ => some []
  | t :: ts, e =>
    match (w.store t).get e with
    | none => none
    | some c =>
      match World.probeAll w ts e with
      | none => none
      | some cs => some (c :: cs)

/-- The driver-store selection of componentIterator: `smallest` starts at
the first requested type's store; each further store yields nothing when
empty, else replaces `smallest` when strictly smaller. -/
def World.smallestGo (w : World) : SparseSet CompVal → List Nat →
    Option (SparseSet CompVal)
  | acc, [] => some acc
  | acc, t :: ts =>
    if (w.store t).size = 0 then none
    else World.smallestGo w
      (if (w.store t).size < acc.size then w.store t else acc) ts

def World.smallestStore (w : World) : List Nat → Option (SparseSet CompVal)
  | [] => none
  | t :: ts => w.smallestGo (w.store t) ts

/-- `componentIterator(...types)`: nothing for no types or an empty
requested store; else iterate the smallest requested store's dense order,
probing every requested store per entity and skipping entities with any
missing component; yield the entity together with its components.  (The
source reuses one mutable result buffer between yields; the yields are
modelled as fresh tuples.  The AutoMap accesses register the requested
type keys; that registration does not affect any store's contents and is
not modelled here.) -/
def World.componentIterator (w : World) (ts : List Nat) :
    List (Nat × List CompVal) :=
  match w.smallestStore ts with
  | none => []
  | some drv =>
    drv.dense.filterMap (fun e =>
      match w.probeAll ts e with
      | none => none
      | some cs => some (e, cs))

theorem map_fst_filterMap (w : World) (ts : List Nat) (l : List Nat) :
    (l.filterMap (fun e =>
      match w.probeAll ts e with
      | none => none
      | some cs => some (e, cs))).map Prod.fst =
    l.filter (fun e => (w.probeAll ts e).isSome) := by
  induction l with
  | nil => rfl
  | cons a l ih =>
    cases hp : w.probeAll ts a with
    | none => simp [List.filterMap_cons, List.filter_cons, hp, ih]
    | some cs => simp [List.filterMap_cons, List.filter_cons, hp, ih]

theorem probeAll_pair_isSome (w : World) (A B e : Nat) :
    (w.probeAll [A, B] e).isSome =
      (((w.store A).get e).isSome && ((w.store B).get e).isSome) := by
  unfold World.probeAll
  cases ha : (w.store A).get e with
  | none => simp
  | some ca =>
    unfold World.probeAll
    cases hb : (w.store B).get e with
    | none => simp
    | some cb => simp [World.probeAll]

theorem SparseSet.has_eq_false_of_size_zero {T : Type} {s : SparseSet T}
    (hw : s.Wf) (h : s.size = 0) (e : Nat) : s.has e = false := by
  by_cases hh : s.has e
  · have hmem := hw.has_iff_mem_dense.1 hh
    have : s.dense.length = 0 := h
    rw [List.length_eq_zero] at this
    rw [this] at hmem
    simp at hmem
  · simpa using hh

/-- Claim C6: the entities yielded by `componentIterator(A, B)` are
exactly those with both components — each yielded exactly once, no others
(count 1 when both components are present, 0 otherwise) — and when either
requested store is empty the iterator yields nothing. -/
theorem componentIterator_exact (w : World) (A B e : Nat)
    (hwa : (w.store A).Wf) (hwb : (w.store B).Wf) :
    ((w.componentIterator [A, B]).map Prod.fst).count e =
      (if (w.store A).has e && (w.store B).has e then 1 else 0) ∧
    ((w.store A).size = 0 ∨ (w.store B).size = 0 →
      w.componentIterator [A, B] = []) := by
  have hsm : w.smallestStore [A, B] =
      if (w.store B).size = 0 then none
      else some (if (w.store B).size < (w.store A).size then w.store B
        else w.store A) := by
    unfold World.smallestStore World.smallestGo
    by_cases h0 : (w.store B).size = 0
    · simp [h0]
    · simp [h0]
      unfold World.smallestGo
      split <;> rfl
  have hprobe : ∀ x, (w.probeAll [A, B] x).isSome =
      ((w.store A).has x && (w.store B).has x) := by
    intro x
    rw [probeAll_pair_isSome, hwa.get_isSome, hwb.get_isSome]
  constructor
  · unfold World.componentIterator
    rw [hsm]
    by_cases h0 : (w.store B).size = 0
    · rw [if_pos h0]
      have hbf : (w.store B).has e = false :=
        SparseSet.has_eq_false_of_size_zero hwb h0 e
      simp [hbf]
    · rw [if_neg h0]
      simp only
      rw [map_fst_filterMap]
      obtain ⟨drv, hdrv, hdwf⟩ :
          ∃ drv, (if (w.store B).size < (w.store A).size then w.store B
            else w.store A) = drv ∧ drv.Wf := by
        by_cases hlt : (w.store B).size < (w.store A).size
        · exact ⟨w.store B, by rw [if_pos hlt], hwb⟩
        · exact ⟨w.store A, by rw [if_neg hlt], hwa⟩
      rw [hdrv]
      by_cases hp : ((w.store A).has e && (w.store B).has e) = true
      · rw [if_pos hp]
        have hcf := List.count_filter
          (p := fun x => (w.probeAll [A, B] x).isSome) (a := e)
          (l := drv.dense)
          (by show (w.probeAll [A, B] e).isSome = true
              rw [hprobe e]
              exact hp)
        rw [hcf]
        have hab := hp
        rw [Bool.and_eq_true] at hab
        have hmem : e ∈ drv.dense := by
          rw [← hdrv]
          by_cases hlt : (w.store B).size < (w.store A).size
          · rw [if_pos hlt]
            exact hwb.has_iff_mem_dense.1 hab.2
          · rw [if_neg hlt]
            exact hwa.has_iff_mem_dense.1 hab.1
        exact List.count_eq_one_of_mem hdwf.dense_nodup hmem
      · rw [if_neg hp]
        have hnot : e ∉ drv.dense.filter
            (fun x => (w.probeAll [A, B] x).isSome) := by
          intro hmem
          have := List.of_mem_filter hmem
          rw [hprobe e] at this
          exact hp this
        exact List.count_eq_zero_of_not_mem hnot
  · intro hdisj
    unfold World.componentIterator
    rw [hsm]
    by_cases h0 : (w.store B).size = 0
    · rw [if_pos h0]
    · rw [if_neg h0]
      rcases hdisj with ha | hb
      · have hlt : ¬ (w.store B).size < (w.store A).size := by omega
        simp only [if_neg hlt]
        have : (w.store A).dense = [] := List.length_eq_zero.1 ha
        rw [this]
        rfl
      · exact absurd hb h0

/-- A concrete world for exercising componentIterator: entity 0 holds
components of types 7 and 8; entity 1 holds only type 7. -/
def iterWorld : World :=
  ((((World.init.createEntity).1.addComponent 0
      ⟨7, CompVal.plain 1⟩).1.addComponent 0
      ⟨8, CompVal.plain 2⟩).1.addComponent 1 ⟨7, CompVal.plain 3⟩).1

/-- Witness for C6 at a concrete input: in `iterWorld`, the iterator over
types (7, 8) yields entity 0 exactly once and entity 1 not at all. -/
theorem componentIterator_exact_witness :
    (iterWorld.store 7).Wf ∧ (iterWorld.store 8).Wf ∧
    ((iterWorld.componentIterator [7, 8]).map Prod.fst).count 0 = 1 ∧
    ((iterWorld.componentIterator [7, 8]).map Prod.fst).count 1 = 0 := by
  refine ⟨by decide, by decide, ?_, ?_⟩
  · exact (componentIterator_exact iterWorld 7 8 0 (by decide) (by decide)).1
  · exact (componentIterator_exact iterWorld 7 8 1 (by decide) (by decide)).1

/- ## Small-step lemmas for the Relationship proofs -/

theorem store_setStore_self (w : World) (t : Nat) (s : SparseSet CompVal) :
    (w.setStore t s).store t = s := by
  simp [World.setStore]

theorem store_setStore_ne (w : World) {t t2 : Nat} (h : t2 ≠ t)
    (s : SparseSet CompVal) : (w.setStore t s).store t2 = w.store t2 := by
  simp [World.setStore, h]

theorem store_updateRel (w : World) (e : Nat)
    (f : Option Nat × List Nat → Option Nat × List Nat) :
    (w.updateRel e f).store relKey = (w.store relKey).modify e (relMap f) := by
  unfold World.updateRel
  exact store_setStore_self w relKey _

theorem getRel_updateRel_self (w : World) (e : Nat)
    (f : Option Nat × List Nat → Option Nat × List Nat) :
    (w.updateRel e f).getRel e = (w.getRel e).map f := by
  unfold World.getRel
  rw [store_updateRel, SparseSet.get_modify_self]
  cases hv : (w.store relKey).get e with
  | none => rfl
  | some v =>
    cases v with
    | rel a b => simp [relMap, asRel]
    | plain n => simp [relMap, asRel]

theorem getRel_updateRel_ne {w : World} (hw : (w.store relKey).Wf)
    {x e : Nat} (h : x ≠ e)
    (f : Option Nat × List Nat → Option Nat × List Nat) :
    (w.updateRel e f).getRel x = w.getRel x := by
  unfold World.getRel
  rw [store_updateRel, SparseSet.get_modify_ne hw h]

theorem getRel_isSome_updateRel {w : World} (hw : (w.store relKey).Wf)
    (x e : Nat) (f : Option Nat × List Nat → Option Nat × List Nat) :
    ((w.updateRel e f).getRel x).isSome = (w.getRel x).isSome := by
  by_cases hx : x = e
  · subst hx
    rw [getRel_updateRel_self]
    cases w.getRel x <;> rfl
  · rw [getRel_updateRel_ne hw hx]

theorem updateRel_entities (w : World) (e : Nat)
    (f : Option Nat × List Nat → Option Nat × List Nat) :
    (w.updateRel e f).entities = w.entities := rfl

theorem updateRel_typesSeen (w : World) (e : Nat)
    (f : Option Nat × List Nat → Option Nat × List Nat) :
    (w.updateRel e f).typesSeen = w.typesSeen := rfl

theorem updateRel_wf {w : World} (hw : (w.store relKey).Wf) (e : Nat)
    (f : Option Nat × List Nat → Option Nat × List Nat) :
    ((w.updateRel e f).store relKey).Wf := by
  rw [store_updateRel]
  exact hw.modify e _

theorem has_of_getRel {w : World} {x : Nat} {pr : Option Nat × List Nat}
    (h : w.getRel x = some pr) : (w.store relKey).has x = true := by
  unfold World.getRel at h
  cases hg : (w.store relKey).get x with
  | none => rw [hg] at h; simp [asRel] at h
  | some v =>
    unfold SparseSet.get at hg
    cases hag : aget (w.store relKey).sparse x with
    | none => rw [hag] at hg; simp at hg
    | some i => simp [SparseSet.has, hag]

/-- The effect of `addComponent` on an entity that does not yet hold a
component of the type: the instance is stored and the component-added and
tag-added events fire, with no removal phase. -/
theorem addComponent_fresh_proj (w : World) (e t : Nat) (v : CompVal)
    (he : w.entityExists e = true) (hhas : (w.store t).has e = false) :
    (w.addComponent e ⟨t, v⟩).2.2 = none ∧
    (w.addComponent e ⟨t, v⟩).2.1 =
      WEvent.compAdded t e :: (w.tagsOf t).map (fun g => WEvent.tagAdded g e) ∧
    ((w.addComponent e ⟨t, v⟩).1).store =
      (fun x => if x = t then ((w.store t).add e v).1 else w.store x) ∧
    ((w.addComponent e ⟨t, v⟩).1).entities = w.entities ∧
    (∀ t2, t2 ∈ w.typesSeen → t2 ∈ ((w.addComponent e ⟨t, v⟩).1).typesSeen) := by
  unfold World.addComponent
  rw [if_neg (by simp [he] : ¬ ¬ w.entityExists e = true)]
  simp only
  rw [if_neg (by simp [show ((w.registerType t).store t).has e = false from
    hhas] : ¬ ((w.registerType t).store t).has e = true)]
  refine ⟨trivial, rfl, ?_, ?_, ?_⟩
  · rw [tagAddFold_store]
    simp only [World.setStore]
    funext x
    by_cases hx : x = t <;> simp [hx, World.registerType]
  · rw [tagAddFold_entities]
    simp only [World.setStore]
    rfl
  · intro t2 ht2
    rw [tagAddFold_typesSeen]
    simp only [World.setStore]
    exact mem_typesSeen_registerType t ht2

/-- Unified effects of a successful `addComponent`: no error, entities
preserved, typesSeen membership preserved, the value stored at `e`, other
entities' slots in the type's store untouched, well-formedness of the
store preserved, and every other type's store unchanged. -/
theorem addComponent_effects (w : World) (e t : Nat) (v : CompVal)
    (hw : (w.store t).Wf) (he : w.entityExists e = true) :
    (w.addComponent e ⟨t, v⟩).2.2 = none ∧
    ((w.addComponent e ⟨t, v⟩).1).entities = w.entities ∧
    (∀ t2, t2 ∈ w.typesSeen → t2 ∈ ((w.addComponent e ⟨t, v⟩).1).typesSeen) ∧
    (((w.addComponent e ⟨t, v⟩).1).store t).get e = some v ∧
    (∀ x, x ≠ e →
      (((w.addComponent e ⟨t, v⟩).1).store t).get x = (w.store t).get x) ∧
    (((w.addComponent e ⟨t, v⟩).1).store t).Wf ∧
    (∀ t2, t2 ≠ t → ((w.addComponent e ⟨t, v⟩).1).store t2 = w.store t2) := by
  by_cases hhas : (w.store t).has e = true
  · obtain ⟨h1, h2, h3, h4, h5⟩ := addComponent_replace_proj w e t v he hhas
    have hwr : ((w.store t).remove e).Wf := hw.remove e
    have hhr : ((w.store t).remove e).has e = false := by
      rw [SparseSet.has_remove hw]
      simp
    refine ⟨h1, h4, h5, ?_, ?_, ?_, ?_⟩
    · rw [h3]
      simp only [if_true]
      exact SparseSet.get_add_self hwr hhr v
    · intro x hx
      rw [h3]
      simp only [if_true]
      rw [SparseSet.get_add_ne hwr hx]
      exact SparseSet.get_remove_ne hw hx
    · rw [h3]
      simp only [if_true]
      exact hwr.add e v
    · intro t2 ht2
      rw [h3]
      simp only
      rw [if_neg ht2]
  · have hhas' : (w.store t).has e = false := by simpa using hhas
    obtain ⟨h1, h2, h3, h4, h5⟩ := addComponent_fresh_proj w e t v he hhas'
    refine ⟨h1, h4, h5, ?_, ?_, ?_, ?_⟩
    · rw [h3]
      simp only [if_true]
      exact SparseSet.get_add_self hw hhas' v
    · intro x hx
      rw [h3]
      simp only [if_true]
      exact SparseSet.get_add_ne hw hx v
    · rw [h3]
      simp only [if_true]
      exact hw.add e v
    · intro t2 ht2
      rw [h3]
      simp only
      rw [if_neg ht2]

/-- The ancestor walk stops dead at entity id 0: the JS loop guard
`while (currentParent)` is falsy for 0, so the chain beyond (and
including) id 0 is never compared against the searched child. -/
theorem walk_zero_exits (w : World) (fuel child : Nat) :
    Relationship.walk w fuel (some 0) child = false := by
  cases fuel with
  | zero => rfl
  | succ f =>
    unfold Relationship.walk
    rw [if_pos rfl]

/-- `Relationship.Unparent` preserves, on every branch, the live-entity
list, typesSeen membership, well-formedness of the Relationship store, and
which entities carry a Relationship component (it only mutates fields of
existing components). -/
theorem Unparent_effects (w : World) (p c : Nat) (hw : (w.store relKey).Wf) :
    ((Relationship.Unparent w p c).1).entities = w.entities ∧
    (∀ t2, t2 ∈ w.typesSeen →
      t2 ∈ ((Relationship.Unparent w p c).1).typesSeen) ∧
    (((Relationship.Unparent w p c).1).store relKey).Wf ∧
    (∀ x, (((Relationship.Unparent w p c).1).getRel x).isSome =
      (w.getRel x).isSome) := by
  unfold Relationship.Unparent
  by_cases hg : ¬ w.entityExists p ∨ ¬ w.entityExists c
  · rw [if_pos hg]
    exact ⟨rfl, fun t2 h => h, hw, fun x => rfl⟩
  · rw [if_neg hg]
    have hw0 : ((w.registerType relKey).store relKey).Wf := hw
    cases hgc : (w.registerType relKey).getRel c with
    | none =>
      simp only [hgc]
      exact ⟨rfl, fun t2 h => mem_typesSeen_registerType relKey h, hw,
        fun x => rfl⟩
    | some cpch =>
      obtain ⟨cp, ch0⟩ := cpch
      simp only [hgc]
      cases hgp : (w.registerType relKey).getRel p with
      | none =>
        simp only [hgp]
        exact ⟨rfl, fun t2 h => mem_typesSeen_registerType relKey h, hw,
          fun x => rfl⟩
      | some ppch =>
        simp only [hgp]
        by_cases hcp : cp = some p
        · rw [if_pos hcp]
          have hw1 : (((w.registerType relKey).updateRel c
              (fun pc => (none, pc.2))).store relKey).Wf :=
            updateRel_wf hw0 c _
          refine ⟨rfl, fun t2 h => mem_typesSeen_registerType relKey h,
            updateRel_wf hw1 p _, fun x => ?_⟩
          rw [getRel_isSome_updateRel hw1 x p _,
            getRel_isSome_updateRel hw0 x c _]
          rfl
        · rw [if_neg hcp]
          refine ⟨rfl, fun t2 h => mem_typesSeen_registerType relKey h,
            updateRel_wf hw0 p _, fun x => ?_⟩
          rw [getRel_isSome_updateRel hw0 x p _]
          rfl

/-- Steps 5-6 of `Relationship.Parent` (add the child to the parent's
child set, point the child's parent at `parent`): effects on a state
`wA` already related to the entry state `w`. -/
theorem parentFinish_tail (w wA : World) (p c : Nat)
    (hwA : (wA.store relKey).Wf)
    (hent : wA.entities = w.entities)
    (hts : ∀ t2, t2 ∈ w.typesSeen → t2 ∈ wA.typesSeen)
    (hs : (wA.getRel c).isSome = true) :
    ((wA.updateRel p (fun pc => (pc.1, addIfAbsent pc.2 c))).updateRel c
        (fun pc => (some p, pc.2))).entities = w.entities ∧
    (∀ t2, t2 ∈ w.typesSeen →
      t2 ∈ ((wA.updateRel p (fun pc => (pc.1, addIfAbsent pc.2 c))).updateRel c
        (fun pc => (some p, pc.2))).typesSeen) ∧
    (((wA.updateRel p (fun pc => (pc.1, addIfAbsent pc.2 c))).updateRel c
        (fun pc => (some p, pc.2))).store relKey).Wf ∧
    (∃ ch, ((wA.updateRel p (fun pc => (pc.1, addIfAbsent pc.2 c))).updateRel c
        (fun pc => (some p, pc.2))).getRel c = some (some p, ch)) := by
  have hwf3 : ((wA.updateRel p
      (fun pc => (pc.1, addIfAbsent pc.2 c))).store relKey).Wf :=
    updateRel_wf hwA p _
  refine ⟨hent, fun t2 h => hts t2 h, updateRel_wf hwf3 c _, ?_⟩
  have hs3 : ((wA.updateRel p
      (fun pc => (pc.1, addIfAbsent pc.2 c))).getRel c).isSome = true := by
    rw [getRel_isSome_updateRel hwA c p _]
    exact hs
  obtain ⟨pr, hpr⟩ := Option.isSome_iff_exists.1 hs3
  refine ⟨pr.2, ?_⟩
  rw [getRel_updateRel_self, hpr]
  rfl

/-- `parentFinish` (steps 4-6 of `Relationship.Parent`) always succeeds,
preserves the live-entity list and typesSeen membership, keeps the
Relationship store well-formed, and ends with the child's parent pointer
at `parent`. -/
theorem parentFinish_props (w : World) (evs : List WEvent) (p c : Nat)
    (hw : (w.store relKey).Wf) (hc : w.entityExists c = true) :
    (Relationship.parentFinish w evs p c).2.2 = none ∧
    ((Relationship.parentFinish w evs p c).1).entities = w.entities ∧
    (∀ t2, t2 ∈ w.typesSeen →
      t2 ∈ ((Relationship.parentFinish w evs p c).1).typesSeen) ∧
    (((Relationship.parentFinish w evs p c).1).store relKey).Wf ∧
    (∃ ch, ((Relationship.parentFinish w evs p c).1).getRel c =
      some (some p, ch)) := by
  unfold Relationship.parentFinish
  cases hgc : w.getRel c with
  | none =>
    simp only [hgc]
    rcases hadd : w.addComponent c ⟨relKey, CompVal.rel none []⟩ with
      ⟨wA, evsA, errA⟩
    simp only [hadd]
    obtain ⟨e1, e2, e3, e4, e5, e6, e7⟩ :=
      addComponent_effects w c relKey (CompVal.rel none []) hw hc
    rw [hadd] at e2 e3 e4 e6
    simp only at e2 e3 e4 e6
    have hrel : wA.getRel c = some (none, []) := by
      unfold World.getRel
      rw [e4]
      rfl
    simp only [hrel, Option.some_bind]
    obtain ⟨t1, t2, t3, t4⟩ := parentFinish_tail w wA p c e6 e2 e3
      (by rw [hrel]; rfl)
    exact ⟨trivial, t1, t2, t3, t4⟩
  | some pr =>
    obtain ⟨cp, ch0⟩ := pr
    simp only [hgc, Option.some_bind]
    cases cp with
    | none =>
      obtain ⟨t1, t2, t3, t4⟩ := parentFinish_tail w w p c hw rfl
        (fun _ h => h) (by rw [hgc]; rfl)
      exact ⟨trivial, t1, t2, t3, t4⟩
    | some op =>
      rcases hu : Relationship.Unparent w op c with ⟨wB, evsB, errB⟩
      simp only [hu]
      obtain ⟨u1, u2, u3, u4⟩ := Unparent_effects w op c hw
      rw [hu] at u1 u2 u3 u4
      simp only at u1 u2 u3 u4
      have hsB : (wB.getRel c).isSome = true := by
        rw [u4 c, hgc]
        rfl
      obtain ⟨t1, t2, t3, t4⟩ := parentFinish_tail w wB p c u3 u1 u2 hsB
      exact ⟨trivial, t1, t2, t3, t4⟩

/-- Claim C3: refuted in the code.  The claim requires that after a
successful `Relationship.Parent(w, p, c)` the reverse call
`Relationship.Parent(w', c, p)` return the CircularRelationship error
with no mutation.  At the concrete input p = 0, c = 1 (both live; the
singleton entity 0 always exists), the first call succeeds — and so does
the reverse call: its cycle walk starts at currentParent = 1, steps to
1's parent 0, and the loop guard `while (currentParent)` is falsy at
entity id 0, so the loop exits before 0 is ever compared with the
searched child.  The reverse call therefore returns no error and mutates
both entities into a 0↔1 cycle (each is the other's parent and child),
violating the claim, the spec's CircularRelationship contract and the
forest invariant. -/
theorem relationship_parent_reverse_through_zero_succeeds :
    (Relationship.Parent (World.init.createEntity).1 0 1).2.2 = none ∧
    (Relationship.Parent
        (Relationship.Parent (World.init.createEntity).1 0 1).1 1 0).2.2 =
      none ∧
    ((Relationship.Parent
        (Relationship.Parent (World.init.createEntity).1 0 1).1 1 0).1).getRel
      0 = some (some 1, [1]) ∧
    ((Relationship.Parent
        (Relationship.Parent (World.init.createEntity).1 0 1).1 1 0).1).getRel
      1 = some (some 0, [0]) := by
  decide

/-- `Relationship.Unparent` when both sides carry a Relationship and the
child's parent pointer equals `parent`: clear the child's parent pointer
and erase the child from the parent's child set, with no events. -/
theorem Unparent_shape (w : World) (p c : Nat) {chc : List Nat}
    {prp : Option Nat × List Nat}
    (hp : w.entityExists p = true) (hc : w.entityExists c = true)
    (hts : relKey ∈ w.typesSeen)
    (hrc : w.getRel c = some (some p, chc))
    (hrp : w.getRel p = some prp) :
    Relationship.Unparent w p c =
      ((w.updateRel c (fun pc => (none, pc.2))).updateRel p
        (fun pc => (pc.1, pc.2.erase c)), [], none) := by
  unfold Relationship.Unparent
  rw [if_neg (by simp [hp, hc])]
  rw [registerType_eq_of_mem hts]
  simp only [hrc, hrp]
  rw [if_true]

/-- `removeEntity` on a childless entity `e` whose parent `p` carries a
Relationship, in a world that has only seen the Relationship type: the
entity is unparented, its entity-removed event fires, its Relationship
component is removed, and it is deleted from the live set. -/
theorem removeEntity_leaf (f : Nat) (w : World) (p e : Nat)
    {pr : Option Nat × List Nat}
    (hpe : p ≠ e)
    (he : w.entityExists e = true) (hp : w.entityExists p = true)
    (hts : w.typesSeen = [relKey])
    (hw : (w.store relKey).Wf)
    (hre : w.getRel e = some (some p, []))
    (hrp : w.getRel p = some pr) :
    (World.removeEntity (f + 1) w e).2.2 = none ∧
    (World.removeEntity (f + 1) w e).2.1 =
      [WEvent.entityRemoved e, WEvent.compRemoved relKey e] ∧
    ((World.removeEntity (f + 1) w e).1).entities = w.entities.erase e ∧
    ((World.removeEntity (f + 1) w e).1).typesSeen = [relKey] ∧
    (((World.removeEntity (f + 1) w e).1).store relKey).Wf ∧
    (∀ x, x ≠ e → x ≠ p →
      ((World.removeEntity (f + 1) w e).1).getRel x = w.getRel x) ∧
    ((World.removeEntity (f + 1) w e).1).getRel p =
      some (pr.1, pr.2.erase e) := by
  have hts' : relKey ∈ w.typesSeen := by
    rw [hts]
    exact List.mem_singleton.2 rfl
  have hwU1 : ((w.updateRel e (fun pc => (none, pc.2))).store relKey).Wf :=
    updateRel_wf hw e _
  have hwU : (((w.updateRel e (fun pc => (none, pc.2))).updateRel p
      (fun pc => (pc.1, pc.2.erase e))).store relKey).Wf :=
    updateRel_wf hwU1 p _
  have hgUe : ((w.updateRel e (fun pc => (none, pc.2))).updateRel p
      (fun pc => (pc.1, pc.2.erase e))).getRel e = some (none, []) := by
    rw [getRel_updateRel_ne hwU1 (Ne.symm hpe) _, getRel_updateRel_self, hre]
    rfl
  have hgUp : ((w.updateRel e (fun pc => (none, pc.2))).updateRel p
      (fun pc => (pc.1, pc.2.erase e))).getRel p =
      some (pr.1, pr.2.erase e) := by
    rw [getRel_updateRel_self, getRel_updateRel_ne hw hpe _, hrp]
    rfl
  have hgUx : ∀ x, x ≠ e → x ≠ p →
      ((w.updateRel e (fun pc => (none, pc.2))).updateRel p
        (fun pc => (pc.1, pc.2.erase e))).getRel x = w.getRel x :=
    fun x hxe hxp => by
      rw [getRel_updateRel_ne hwU1 hxp _, getRel_updateRel_ne hw hxe _]
  have hhasUe : (((w.updateRel e (fun pc => (none, pc.2))).updateRel p
      (fun pc => (pc.1, pc.2.erase e))).store relKey).has e = true :=
    has_of_getRel hgUe
  obtain ⟨p1, p2, p3, p4, p5, p6⟩ := removeComponent_present
    ((w.updateRel e (fun pc => (none, pc.2))).updateRel p
      (fun pc => (pc.1, pc.2.erase e))) e relKey
    (show ((w.updateRel e (fun pc => (none, pc.2))).updateRel p
      (fun pc => (pc.1, pc.2.erase e))).entityExists e = true from he) hhasUe
  rcases hrcmp : ((w.updateRel e (fun pc => (none, pc.2))).updateRel p
      (fun pc => (pc.1, pc.2.erase e))).removeComponent e relKey with
    ⟨w3, evs4, err4⟩
  rw [hrcmp] at p1 p2 p3 p4 p5 p6
  simp only at p1 p2 p3 p4 p5 p6
  unfold World.removeEntity
  rw [if_neg (by simp [he])]
  rw [registerType_eq_of_mem hts']
  simp only [hre]
  simp only [Unparent_shape w p e hp he hts' hre hrp]
  simp only [List.foldl_nil]
  rw [show ((w.updateRel e (fun pc => (none, pc.2))).updateRel p
      (fun pc => (pc.1, pc.2.erase e))).typesSeen = [relKey] from hts]
  simp only [List.foldl_cons, List.foldl_nil]
  simp only [hrcmp]
  refine ⟨trivial, ?_, ?_, ?_, ?_, ?_, ?_⟩
  · simp [p2, World.tagsOf]
  · show w3.entities.erase e = w.entities.erase e
    rw [p4]
    rfl
  · show w3.typesSeen = [relKey]
    rw [p5, registerType_eq_of_mem (show relKey ∈
      ((w.updateRel e (fun pc => (none, pc.2))).updateRel p
        (fun pc => (pc.1, pc.2.erase e))).typesSeen from hts')]
    exact hts
  · show (w3.store relKey).Wf
    rw [p3]
    simp only [if_true]
    exact hwU.remove e
  · intro x hxe hxp
    show asRel ((w3.store relKey).get x) = w.getRel x
    rw [p3]
    simp only [if_true]
    rw [SparseSet.get_remove_ne hwU hxe]
    exact hgUx x hxe hxp
  · show asRel ((w3.store relKey).get p) = some (pr.1, pr.2.erase e)
    rw [p3]
    simp only [if_true]
    rw [SparseSet.get_remove_ne hwU hpe]
    exact hgUp

/-- One-step unfolding of `removeEntity` at positive fuel. -/
theorem removeEntity_succ (fuel : Nat) (w : World) (e : Nat) :
    World.removeEntity (fuel + 1) w e =
      if ¬ w.entityExists e then (w, [], some WError.entityDoesNotExist)
      else
        let w0 := w.registerType relKey
        let res : World × List WEvent :=
          match w0.getRel e with
          | some (p, children) =>
            let res1 : World × List WEvent :=
              match p with
              | some par =>
                match Relationship.Unparent w0 par e with
                | (w1, evs1, _) => (w1, evs1)
              | none => (w0, [])
            children.foldl
              (fun (acc : World × List WEvent) c =>
                match World.removeEntity fuel acc.1 c with
                | (w2, evs2, _) => (w2, acc.2 ++ evs2))
              res1
          | none => (w0, [])
        let res4 : World × List WEvent := res.1.typesSeen.foldl
          (fun (acc : World × List WEvent) t =>
            match acc.1.removeComponent e t with
            | (w3, evs4, _) => (w3, acc.2 ++ evs4))
          (res.1, [])
        ({ res4.1 with entities := res4.1.entities.erase e },
         res.2 ++ WEvent.entityRemoved e :: res4.2, none) := rfl

theorem entityExists_iff_mem (w : World) (e : Nat) :
    w.entityExists e = true ↔ e ∈ w.entities := by
  unfold World.entityExists
  exact List.elem_iff

/-- `removeEntity` on an entity `e` with parent `p` and single child `c`
(itself childless), in a world that has only seen the Relationship type:
the child is fully destroyed (its entity-removed and component-removed
events) before `e`'s own entity-removed event, then `e`'s Relationship
component is removed and `e` leaves the live set. -/
theorem removeEntity_node (f : Nat) (w : World) (p e c : Nat)
    {prp : Option Nat × List Nat}
    (hpe : p ≠ e) (hpc : p ≠ c) (hec : e ≠ c)
    (he : w.entityExists e = true) (hp : w.entityExists p = true)
    (hcEx : w.entityExists c = true)
    (hts : w.typesSeen = [relKey])
    (hw : (w.store relKey).Wf)
    (hre : w.getRel e = some (some p, [c]))
    (hrc : w.getRel c = some (some e, []))
    (hrp : w.getRel p = some prp) :
    (World.removeEntity (f + 1 + 1) w e).2.2 = none ∧
    (World.removeEntity (f + 1 + 1) w e).2.1 =
      [WEvent.entityRemoved c, WEvent.compRemoved relKey c,
       WEvent.entityRemoved e, WEvent.compRemoved relKey e] ∧
    ((World.removeEntity (f + 1 + 1) w e).1).entities =
      (w.entities.erase c).erase e ∧
    ((World.removeEntity (f + 1 + 1) w e).1).typesSeen = [relKey] ∧
    (((World.removeEntity (f + 1 + 1) w e).1).store relKey).Wf ∧
    (∀ x, x ≠ e → x ≠ p → x ≠ c →
      ((World.removeEntity (f + 1 + 1) w e).1).getRel x = w.getRel x) ∧
    ((World.removeEntity (f + 1 + 1) w e).1).getRel p =
      some (prp.1, prp.2.erase e) := by
  have hts' : relKey ∈ w.typesSeen := by
    rw [hts]
    exact List.mem_singleton.2 rfl
  have hwU1 : ((w.updateRel e (fun pc => (none, pc.2))).store relKey).Wf :=
    updateRel_wf hw e _
  have hwU : (((w.updateRel e (fun pc => (none, pc.2))).updateRel p
      (fun pc => (pc.1, pc.2.erase e))).store relKey).Wf :=
    updateRel_wf hwU1 p _
  have hgUe : ((w.updateRel e (fun pc => (none, pc.2))).updateRel p
      (fun pc => (pc.1, pc.2.erase e))).getRel e = some (none, [c]) := by
    rw [getRel_updateRel_ne hwU1 (Ne.symm hpe) _, getRel_updateRel_self, hre]
    rfl
  have hgUc : ((w.updateRel e (fun pc => (none, pc.2))).updateRel p
      (fun pc => (pc.1, pc.2.erase e))).getRel c = some (some e, []) := by
    rw [getRel_updateRel_ne hwU1 (Ne.symm hpc) _,
      getRel_updateRel_ne hw (Ne.symm hec) _, hrc]
  have hgUp : ((w.updateRel e (fun pc => (none, pc.2))).updateRel p
      (fun pc => (pc.1, pc.2.erase e))).getRel p =
      some (prp.1, prp.2.erase e) := by
    rw [getRel_updateRel_self, getRel_updateRel_ne hw hpe _, hrp]
    rfl
  have hgUx : ∀ x, x ≠ e → x ≠ p →
      ((w.updateRel e (fun pc => (none, pc.2))).updateRel p
        (fun pc => (pc.1, pc.2.erase e))).getRel x = w.getRel x :=
    fun x hxe hxp => by
      rw [getRel_updateRel_ne hwU1 hxp _, getRel_updateRel_ne hw hxe _]
  obtain ⟨q1, q2, q3, q4, q5, q6, q7⟩ := removeEntity_leaf f
    ((w.updateRel e (fun pc => (none, pc.2))).updateRel p
      (fun pc => (pc.1, pc.2.erase e))) e c hec
    (show ((w.updateRel e (fun pc => (none, pc.2))).updateRel p
      (fun pc => (pc.1, pc.2.erase e))).entityExists c = true from hcEx)
    (show ((w.updateRel e (fun pc => (none, pc.2))).updateRel p
      (fun pc => (pc.1, pc.2.erase e))).entityExists e = true from he)
    (show ((w.updateRel e (fun pc => (none, pc.2))).updateRel p
      (fun pc => (pc.1, pc.2.erase e))).typesSeen = [relKey] from hts)
    hwU hgUc hgUe
  rcases hrecC : World.removeEntity (f + 1)
      ((w.updateRel e (fun pc => (none, pc.2))).updateRel p
        (fun pc => (pc.1, pc.2.erase e))) c with ⟨wC, evsC, errC⟩
  rw [hrecC] at q1 q2 q3 q4 q5 q6 q7
  simp only at q1 q2 q3 q4 q5 q6 q7
  have q7' : wC.getRel e = some (none, []) := by
    rw [q7]
    simp [List.erase_cons_head]
  have heC : wC.entityExists e = true := by
    rw [entityExists_iff_mem, q3, List.mem_erase_of_ne hec]
    exact (entityExists_iff_mem w e).1 he
  have hhasC : (wC.store relKey).has e = true := has_of_getRel q7'
  obtain ⟨r1, r2, r3, r4, r5, r6⟩ :=
    removeComponent_present wC e relKey heC hhasC
  rcases hrcmp : wC.removeComponent e relKey with ⟨w3, evs4, err4⟩
  rw [hrcmp] at r1 r2 r3 r4 r5 r6
  simp only at r1 r2 r3 r4 r5 r6
  rw [removeEntity_succ (f + 1) w e]
  rw [if_neg (by simp [he])]
  rw [registerType_eq_of_mem hts']
  simp only [hre]
  simp only [Unparent_shape w p e hp he hts' hre hrp]
  simp only [List.foldl_cons, List.foldl_nil]
  simp only [hrecC]
  rw [q4]
  simp only [List.foldl_cons, List.foldl_nil]
  simp only [hrcmp]
  refine ⟨trivial, ?_, ?_, ?_, ?_, ?_, ?_⟩
  · simp [q2, r2, World.tagsOf]
  · show w3.entities.erase e = (w.entities.erase c).erase e
    rw [r4, q3]
    rfl
  · show w3.typesSeen = [relKey]
    rw [r5, registerType_eq_of_mem (show relKey ∈ wC.typesSeen by
      rw [q4]; exact List.mem_singleton.2 rfl)]
    exact q4
  · show (w3.store relKey).Wf
    rw [r3]
    simp only [if_true]
    exact q5.remove e
  · intro x hxe hxp hxc
    show asRel ((w3.store relKey).get x) = w.getRel x
    rw [r3]
    simp only [if_true]
    rw [SparseSet.get_remove_ne q5 hxe]
    show wC.getRel x = w.getRel x
    rw [q6 x hxc hxe]
    exact hgUx x hxe hxp
  · show asRel ((w3.store relKey).get p) = some (prp.1, prp.2.erase e)
    rw [r3]
    simp only [if_true]
    rw [SparseSet.get_remove_ne q5 hpe]
    show wC.getRel p = some (prp.1, prp.2.erase e)
    rw [q6 p hpc hpe]
    exact hgUp

/-- Claim C4: for a parent chain A→B→C built with `Relationship.Parent`
(C child of B, B child of A, each a live entity of a duplicate-free
live set, in a world whose only seen component type is Relationship),
`removeEntity(A)` succeeds and leaves `entityExists` false for A, B and C;
the event trace shows the claimed order — the recursive destruction of
each entity's children completes (C's entity-removed and
component-removed events) before that entity's own entity-removed event
fires, after which every seen component type is removed from it — and the
final live set is the original one with C, B and A deleted. -/
theorem removeEntity_chain_removes_descendants_in_order
    (w : World) (A B C f : Nat)
    (hAB : A ≠ B) (hAC : A ≠ C) (hBC : B ≠ C)
    (hN : w.entities.Nodup)
    (hA : w.entityExists A = true) (hB : w.entityExists B = true)
    (hC : w.entityExists C = true)
    (hts : w.typesSeen = [relKey])
    (hw : (w.store relKey).Wf)
    (hrA : w.getRel A = some (none, [B]))
    (hrB : w.getRel B = some (some A, [C]))
    (hrC : w.getRel C = some (some B, [])) :
    (World.removeEntity (f + 3) w A).2.2 = none ∧
    (World.removeEntity (f + 3) w A).2.1 =
      [WEvent.entityRemoved C, WEvent.compRemoved relKey C,
       WEvent.entityRemoved B, WEvent.compRemoved relKey B,
       WEvent.entityRemoved A, WEvent.compRemoved relKey A] ∧
    ((World.removeEntity (f + 3) w A).1).entities =
      ((w.entities.erase C).erase B).erase A ∧
    ((World.removeEntity (f + 3) w A).1).entityExists A = false ∧
    ((World.removeEntity (f + 3) w A).1).entityExists B = false ∧
    ((World.removeEntity (f + 3) w A).1).entityExists C = false := by
  have hsplit : f + 3 = f + 1 + 1 + 1 := rfl
  rw [hsplit]
  have hts' : relKey ∈ w.typesSeen := by
    rw [hts]
    exact List.mem_singleton.2 rfl
  obtain ⟨s1, s2, s3, s4, s5, s6, s7⟩ := removeEntity_node f w A B C
    hAB hAC hBC hB hA hC hts hw hrB hrC hrA
  rcases hrecB : World.removeEntity (f + 1 + 1) w B with ⟨wB, evsB, errB⟩
  rw [hrecB] at s1 s2 s3 s4 s5 s6 s7
  simp only at s1 s2 s3 s4 s5 s6 s7
  have hgBA : wB.getRel A = some (none, []) := by
    rw [s7]
    simp [List.erase_cons_head]
  have heA' : wB.entityExists A = true := by
    rw [entityExists_iff_mem, s3, List.mem_erase_of_ne hAB,
      List.mem_erase_of_ne hAC]
    exact (entityExists_iff_mem w A).1 hA
  have hhasA : (wB.store relKey).has A = true := has_of_getRel hgBA
  obtain ⟨t1, t2, t3, t4, t5, t6⟩ :=
    removeComponent_present wB A relKey heA' hhasA
  rcases hrcmp2 : wB.removeComponent A relKey with ⟨w3, evs4, err4⟩
  rw [hrcmp2] at t1 t2 t3 t4 t5 t6
  simp only at t1 t2 t3 t4 t5 t6
  rw [removeEntity_succ (f + 1 + 1) w A]
  rw [if_neg (by simp [hA])]
  rw [registerType_eq_of_mem hts']
  simp only [hrA]
  simp only [List.foldl_cons, List.foldl_nil]
  simp only [hrecB]
  rw [s4]
  simp only [List.foldl_cons, List.foldl_nil]
  simp only [hrcmp2]
  have hfin : w3.entities.erase A = ((w.entities.erase C).erase B).erase A := by
    rw [t4, s3]
  refine ⟨trivial, ?_, ?_, ?_, ?_, ?_⟩
  · simp [s2, t2, World.tagsOf]
  · show w3.entities.erase A = ((w.entities.erase C).erase B).erase A
    exact hfin
  · show (w3.entities.erase A).contains A = false
    rw [hfin]
    have hmemA : A ∉ ((w.entities.erase C).erase B).erase A := by
      intro hmem
      rw [((hN.erase C).erase B).mem_erase_iff] at hmem
      exact hmem.1 rfl
    rw [Bool.eq_false_iff]
    intro hcon
    exact hmemA (List.elem_iff.1 hcon)
  · show (w3.entities.erase A).contains B = false
    rw [hfin]
    have hmemB : B ∉ ((w.entities.erase C).erase B).erase A := by
      intro hmem
      rw [((hN.erase C).erase B).mem_erase_iff] at hmem
      rw [(hN.erase C).mem_erase_iff] at hmem
      exact hmem.2.1 rfl
    rw [Bool.eq_false_iff]
    intro hcon
    exact hmemB (List.elem_iff.1 hcon)
  · show (w3.entities.erase A).contains C = false
    rw [hfin]
    have hmemC : C ∉ ((w.entities.erase C).erase B).erase A := by
      intro hmem
      rw [((hN.erase C).erase B).mem_erase_iff] at hmem
      rw [(hN.erase C).mem_erase_iff] at hmem
      rw [hN.mem_erase_iff] at hmem
      exact hmem.2.2.1 rfl
    rw [Bool.eq_false_iff]
    intro hcon
    exact hmemC (List.elem_iff.1 hcon)

/-- A world with live entities 0, 1, 2 and the chain 0→1→2 built by two
`Relationship.Parent` calls (2 child of 1, 1 child of 0). -/
def chainWorld : World :=
  (Relationship.Parent
    (Relationship.Parent ((World.init.createEntity).1.createEntity).1 0 1).1
    1 2).1

/-- Witness for C4 at a concrete input: removing entity 0 of `chainWorld`
destroys 2, then 1, then 0, in the claimed event order, and all three
disappear from the live set. -/
theorem removeEntity_chain_removes_descendants_in_order_witness :
    (chainWorld.entities.Nodup ∧
     chainWorld.entityExists 0 = true ∧
     chainWorld.entityExists 1 = true ∧
     chainWorld.entityExists 2 = true ∧
     chainWorld.typesSeen = [relKey] ∧
     (chainWorld.store relKey).Wf ∧
     chainWorld.getRel 0 = some (none, [1]) ∧
     chainWorld.getRel 1 = some (some 0, [2]) ∧
     chainWorld.getRel 2 = some (some 1, [])) ∧
    (World.removeEntity 3 chainWorld 0).2.2 = none ∧
    (World.removeEntity 3 chainWorld 0).2.1 =
      [WEvent.entityRemoved 2, WEvent.compRemoved relKey 2,
       WEvent.entityRemoved 1, WEvent.compRemoved relKey 1,
       WEvent.entityRemoved 0, WEvent.compRemoved relKey 0] ∧
    ((World.removeEntity 3 chainWorld 0).1).entityExists 0 = false ∧
    ((World.removeEntity 3 chainWorld 0).1).entityExists 1 = false ∧
    ((World.removeEntity 3 chainWorld 0).1).entityExists 2 = false := by
  have h := removeEntity_chain_removes_descendants_in_order chainWorld 0 1 2 0
    (by decide) (by decide) (by decide) (by decide) (by decide) (by decide)
    (by decide) (by decide) (by decide) (by decide) (by decide) (by decide)
  exact ⟨⟨by decide, by decide, by decide, by decide, by decide, by decide,
    by decide, by decide, by decide⟩,
    h.1, h.2.1, h.2.2.2.1, h.2.2.2.2.1, h.2.2.2.2.2⟩
